import Mathlib

/-!
Verification of the RiotRiftRewind ingestion and statistics engine.

Shallow embedding of the core components of `app/riot_client.py`,
`app/services/split_agg.py` and `app/config.py`:

* patch parsing and split windows,
* the fetch retry loop (429 / 5xx policy),
* the TTL cache with in-flight coalescing (as a small-step concurrency model),
* the token bucket rate limiter,
* the deep paginator,
* the queue classifier, and
* the champion aggregator / scorer with its role labelling.

Machine floats of the source are modelled as exact rationals where the source
computes rational values, and as real numbers where the source uses
transcendental functions (`math.exp`, `math.sqrt`, `math.log1p`).
-/

set_option maxHeartbeats 1000000

namespace RiftRewind

/-! ## Patch parsing (`split_agg.patch_tuple`, `within_patch_range`, config `SPLITS`) -/

/-- Numeric value of a decimal digit character. -/
def digitVal (c : Char) : Nat := c.toNat - 48

/-- Helper for `numGroups`: scans characters, accumulating the current run of
digits (`acc`), and emits each maximal digit run as a number.  This embeds
Python `re.findall(r"\d+", s)` followed by `int` on each group. -/
def numGroupsAux : List Char → Option Nat → List Nat
  | [], none => []
  | [], some n => [n]
  | c :: cs, acc =>
    if c.isDigit then numGroupsAux cs (some ((acc.getD 0) * 10 + digitVal c))
    else
      match acc with
      | some n => n :: numGroupsAux cs none
      | none => numGroupsAux cs none

/-- All maximal digit groups of a string, as numbers. -/
def numGroups (s : String) : List Nat := numGroupsAux s.data none

/-- Embeds `split_agg.patch_tuple`: first two digit groups of the version
string, `(0, 0)` when fewer than two groups exist. -/
def patch_tuple (game_version : String) : Nat × Nat :=
  match numGroups game_version with
  | a :: b :: _ => (a, b)
  | _ => (0, 0)

/-- Python tuple `<=` on `(major, minor)` pairs (lexicographic). -/
def tupLeB (a b : Nat × Nat) : Bool :=
  decide (a.1 < b.1) || (decide (a.1 = b.1) && decide (a.2 ≤ b.2))

/-- Python tuple `<` on `(major, minor)` pairs (lexicographic, strict). -/
def tupLtB (a b : Nat × Nat) : Bool :=
  decide (a.1 < b.1) || (decide (a.1 = b.1) && decide (a.2 < b.2))

/-- Propositional form of the lexicographic order on `(major, minor)` pairs. -/
def tupLeP (a b : Nat × Nat) : Prop :=
  a.1 < b.1 ∨ (a.1 = b.1 ∧ a.2 ≤ b.2)

instance (a b : Nat × Nat) : Decidable (tupLeP a b) := by
  unfold tupLeP; infer_instance

theorem tupLeB_iff (a b : Nat × Nat) : tupLeB a b = true ↔ tupLeP a b := by
  unfold tupLeB tupLeP
  simp [Bool.or_eq_true, Bool.and_eq_true, decide_eq_true_iff]

/-- Embeds `split_agg.within_patch_range`: `L <= g <= H` on parsed tuples. -/
def within_patch_range (game_version lo hi : String) : Bool :=
  tupLeB (patch_tuple lo) (patch_tuple game_version) &&
    tupLeB (patch_tuple game_version) (patch_tuple hi)

/-- Embeds `config.SPLITS` (an insertion-ordered dict). -/
def SPLITS : List (String × (String × String)) :=
  [("s1", ("15.1", "15.4")), ("s2", ("15.5", "15.16")), ("s3", ("15.17", "15.24"))]

/-- Embeds `SPLITS.get(split)`. -/
def splitsGet (k : String) : Option (String × String) :=
  (SPLITS.find? (fun kv => kv.1 == k)).map (fun kv => kv.2)

/-! ## Match data model (the parts of a Riot match dict read by the engine) -/

/-- One participant entry of a match `info` dict.  Fields the source reads
with `.get(..., default)` and that are always present in practice are total;
`timePlayed` is optional because the source falls back to `gameDuration`. -/
structure Participant where
  puuid : String
  championName : String
  kills : Nat
  deaths : Nat
  assists : Nat
  teamPosition : String
  teamId : Nat
  totalMinionsKilled : Nat
  neutralMinionsKilled : Nat
  visionScore : Nat
  totalDamageDealtToChampions : Nat
  win : Bool
  timePlayed : Option Nat
deriving DecidableEq

/-- The `info` part of a match dict.  `queueId` is optional, matching
`info.get("queueId")`. -/
structure MatchInfo where
  queueId : Option Nat
  gameVersion : String
  gameDuration : Nat
  participants : List Participant
deriving DecidableEq

/-- Embeds `split_agg.filter_matches_by_split` (note the source defaults an
unknown split id to the `s1` window via `SPLITS.get(split, SPLITS["s1"])`). -/
def filter_matches_by_split (ms : List MatchInfo) (split : String) : List MatchInfo :=
  let lohi := (splitsGet split).getD ("15.1", "15.4")
  ms.filter (fun m => within_patch_range m.gameVersion lohi.1 lohi.2)

end RiftRewind

namespace RiftRewind

/-! ## Claims C9 and C5 -/

/-- C9: patch parsing extracts the first two numeric groups and maps any
input without them to `(0,0)`: `"15.4.512.99"` parses to `(15,4)` and
`"garbage"` to `(0,0)`; and whenever the lower bound of a range parses to
something other than `(0,0)`, the range test `lo ≤ v ≤ hi` is false for an
unparsable version string (one that parses to `(0,0)`). -/
theorem c9_patch_parsing :
    patch_tuple "15.4.512.99" = (15, 4) ∧
    patch_tuple "garbage" = (0, 0) ∧
    ∀ lo hi gv : String, patch_tuple lo ≠ (0, 0) → patch_tuple gv = (0, 0) →
      within_patch_range gv lo hi = false := by
  refine ⟨by decide, by decide, ?_⟩
  intro lo hi gv hlo hgv
  unfold within_patch_range
  rw [hgv]
  rcases h : tupLeB (patch_tuple lo) (0, 0) with _ | _
  · simp
  · exfalso
    apply hlo
    rcases (tupLeB_iff _ _).mp h with h1 | ⟨h1, h2⟩
    · omega
    · have : (patch_tuple lo).2 = 0 := Nat.le_zero.mp h2
      cases hpl : patch_tuple lo
      rw [hpl] at h1 this
      simp_all

/-- Witness for C9 at concrete inputs: the `s1` lower bound `"15.1"` parses to
a non-trivial patch and `"garbage"` fails the `s1` range test. -/
theorem c9_patch_parsing_witness :
    within_patch_range "garbage" "15.1" "15.4" = false :=
  c9_patch_parsing.2.2 "15.1" "15.4" "garbage" (by decide) (by decide)

/-- A concrete match whose parsed patch equals the upper bound of split `s1`. -/
def boundaryMatch : MatchInfo :=
  { queueId := some 420, gameVersion := "15.4.1", gameDuration := 1800, participants := [] }

/-- C5, counterexample: the claim says a match whose parsed patch equals the
window upper bound (`"15.4"` for `s1`) is excluded, but
`filter_matches_by_split` keeps it: `within_patch_range` tests
`lo ≤ v ≤ hi` with an inclusive upper bound. -/
theorem c5_counterexample :
    patch_tuple "15.4.1" = patch_tuple "15.4" ∧
    filter_matches_by_split [boundaryMatch] "s1" = [boundaryMatch] := by
  constructor
  · decide
  · decide

/-- C5, amended: the split filter keeps a match if and only if
`lowerPatch ≤ parsed patch ≤ upperPatch`, with the upper bound inclusive; in
particular a match whose parsed patch equals the window upper bound is kept. -/
theorem c5_amended :
    (∀ (ms : List MatchInfo) (s : String) (m : MatchInfo) (lo hi : String),
      splitsGet s = some (lo, hi) →
      (m ∈ filter_matches_by_split ms s ↔
        m ∈ ms ∧ tupLeP (patch_tuple lo) (patch_tuple m.gameVersion) ∧
          tupLeP (patch_tuple m.gameVersion) (patch_tuple hi))) ∧
    filter_matches_by_split [boundaryMatch] "s1" = [boundaryMatch] := by
  constructor
  · intro ms s m lo hi hs
    unfold filter_matches_by_split
    rw [hs]
    simp only [Option.getD_some, List.mem_filter]
    unfold within_patch_range
    rw [Bool.and_eq_true, tupLeB_iff, tupLeB_iff]
  · decide

/-- Witness for C5 (amended): instantiating the iff at the boundary match and
split `s1` shows the match parsed exactly at the upper bound is kept. -/
theorem c5_amended_witness :
    boundaryMatch ∈ filter_matches_by_split [boundaryMatch] "s1" :=
  ((c5_amended.1 [boundaryMatch] "s1" boundaryMatch "15.1" "15.4" (by decide)).mpr
    (by refine ⟨by decide, ?_, ?_⟩ <;> decide))

end RiftRewind

namespace RiftRewind

/-! ## Fetch Client retry loop (`riot_client.RiotClient._get`, lines 144-168)

The loop issues one HTTP request per iteration, incrementing `attempts` at the
top of every iteration.  A 429 response sleeps `max(1, Retry-After)` (header
default `"2"`) and loops; a 502/503/504 response loops only while
`attempts < 3`, sleeping `0.5 * attempts`; any other error status raises.
We embed the loop as a function of the finite sequence of HTTP responses the
server returns, producing the sleep trace and the outcome. -/

/-- One HTTP response: a 2xx success carrying a parsed body, or an error
status carrying the optional parsed `Retry-After` header. -/
inductive HResp where
  | ok (v : Nat)
  | code (status : Nat) (retryAfter : Option Int)
deriving DecidableEq

/-- Outcome of the retry loop on a finite response sequence. -/
inductive GOut where
  | success (v : Nat)
  | failure (status : Nat)
  | exhausted
deriving DecidableEq

/-- Sleep taken for a 429: `max(1, int(headers.get("Retry-After", "2")))`. -/
def sleep429 (retryAfter : Option Int) : Int := max 1 (retryAfter.getD 2)

/-- Embeds the `while True` retry loop of `_get`, starting from a given value
of the `attempts` counter.  Returns the list of sleeps performed and the
outcome; `GOut.exhausted` means the supplied response sequence ran out while
the loop was still retrying. -/
def getLoop : Nat → List HResp → List ℚ × GOut
  | _, [] => ([], GOut.exhausted)
  | attempts, r :: rest =>
    let a := attempts + 1
    match r with
    | HResp.ok v => ([], GOut.success v)
    | HResp.code st ra =>
      if st = 429 then
        let r2 := getLoop a rest
        (((sleep429 ra : ℤ) : ℚ) :: r2.1, r2.2)
      else if (st = 502 ∨ st = 503 ∨ st = 504) ∧ a < 3 then
        let r2 := getLoop a rest
        (((1 : ℚ) / 2 * (a : ℚ)) :: r2.1, r2.2)
      else ([], GOut.failure st)

/-- The retry loop as entered by `_get` (counter starts at 0). -/
def riotGet (rs : List HResp) : List ℚ × GOut := getLoop 0 rs

theorem getLoop_nil (attempts : Nat) : getLoop attempts [] = ([], GOut.exhausted) := by
  simp [getLoop]

theorem getLoop_cons_ok (attempts v : Nat) (rest : List HResp) :
    getLoop attempts (HResp.ok v :: rest) = ([], GOut.success v) := by
  simp [getLoop]

theorem getLoop_cons_429 (attempts : Nat) (ra : Option Int) (rest : List HResp) :
    getLoop attempts (HResp.code 429 ra :: rest) =
      (((sleep429 ra : ℤ) : ℚ) :: (getLoop (attempts + 1) rest).1,
        (getLoop (attempts + 1) rest).2) := by
  simp [getLoop]

theorem getLoop_cons_502 (attempts : Nat) (rest : List HResp) :
    getLoop attempts (HResp.code 502 none :: rest) =
      if attempts + 1 < 3 then
        (((1 : ℚ) / 2 * ((attempts + 1 : Nat) : ℚ)) :: (getLoop (attempts + 1) rest).1,
          (getLoop (attempts + 1) rest).2)
      else ([], GOut.failure 502) := by
  by_cases h : attempts + 1 < 3
  · simp [getLoop, h]
  · simp [getLoop, h]

theorem getLoop_429s (k : Nat) (ra : Option Int) :
    ∀ (a : Nat) (rest : List HResp),
      getLoop a (List.replicate k (HResp.code 429 ra) ++ rest) =
        (List.replicate k ((sleep429 ra : ℤ) : ℚ) ++ (getLoop (a + k) rest).1,
          (getLoop (a + k) rest).2) := by
  induction k with
  | zero => intro a rest; simp
  | succ n ih =>
    intro a rest
    rw [List.replicate_succ, List.cons_append, getLoop_cons_429, ih (a + 1) rest]
    have h3 : a + 1 + n = a + (n + 1) := by omega
    rw [h3, List.replicate_succ, List.cons_append]

theorem getLoop_502s (m : Nat) (v : Nat) :
    ∀ a : Nat,
      (getLoop a (List.replicate m (HResp.code 502 none) ++ [HResp.ok v])).2 =
        if m = 0 ∨ a + m < 3 then GOut.success v else GOut.failure 502 := by
  induction m with
  | zero => intro a; simp [getLoop_cons_ok]
  | succ n ih =>
    intro a
    rw [List.replicate_succ, List.cons_append, getLoop_cons_502]
    by_cases h : a + 1 < 3
    · rw [if_pos h]
      show (getLoop (a + 1) (List.replicate n (HResp.code 502 none) ++ [HResp.ok v])).2 = _
      rw [ih (a + 1)]
      have h2 : (n = 0 ∨ a + 1 + n < 3) ↔ (n + 1 = 0 ∨ a + (n + 1) < 3) := by omega
      simp only [h2]
    · rw [if_neg h]
      have h2 : ¬(n + 1 = 0 ∨ a + (n + 1) < 3) := by omega
      rw [if_neg h2]

/-- C1, counterexample: the claim says 429 retries do not count against the
attempt cap for 502/503/504, so the number of permitted 5xx retries would be
the same with or without preceding 429s.  In the code every loop iteration
increments the shared `attempts` counter: with no preceding 429, a single 502
is retried and the call succeeds, but after two 429 responses the same single
502 exhausts the cap (`attempts < 3` fails) and the call fails. -/
theorem c1_counterexample :
    (riotGet [HResp.code 502 none, HResp.ok 7]).2 = GOut.success 7 ∧
    (riotGet [HResp.code 429 none, HResp.code 429 none, HResp.code 502 none,
      HResp.ok 7]).2 = GOut.failure 502 ∧
    (riotGet [HResp.code 502 none, HResp.ok 7]).2 ≠
      (riotGet [HResp.code 429 none, HResp.code 429 none, HResp.code 502 none,
        HResp.ok 7]).2 := by
  refine ⟨by decide, by decide, by decide⟩

/-- C1, amended: a 429 response is always retried (there is no cap on the
number of 429 retries) after sleeping `max(1, Retry-After)` seconds (default
`2` when the header is absent), but each 429 attempt increments the shared
attempt counter, so 429 retries DO count against the cap limiting 502/503/504
retries: after `k` preceding 429 responses, a run of `m` consecutive 502
responses followed by a success yields success if and only if `m = 0` or
`k + m < 3` (with no preceding 429s this permits two 5xx retries; each 429
reduces the allowance by one, down to zero). -/
theorem c1_amended (k m v : Nat) (ra : Option Int) :
    (riotGet (List.replicate k (HResp.code 429 ra) ++
        (List.replicate m (HResp.code 502 none) ++ [HResp.ok v]))).2 =
      (if m = 0 ∨ k + m < 3 then GOut.success v else GOut.failure 502) ∧
    (riotGet (List.replicate k (HResp.code 429 ra) ++ [HResp.ok v])).1 =
      List.replicate k ((sleep429 ra : ℤ) : ℚ) := by
  constructor
  · unfold riotGet
    rw [getLoop_429s k ra 0 (List.replicate m (HResp.code 502 none) ++ [HResp.ok v])]
    show (getLoop (0 + k) _).2 = _
    rw [getLoop_502s m v (0 + k)]
    have : 0 + k + m = k + m := by omega
    rw [this]
  · unfold riotGet
    rw [getLoop_429s k ra 0 [HResp.ok v]]
    show List.replicate k _ ++ (getLoop (0 + k) [HResp.ok v]).1 = _
    simp [getLoop]

end RiftRewind

namespace RiftRewind

/-! ## Token bucket (`riot_client._AsyncTokenBucket`, lines 26-48)

The mutex makes refill-check-subtract atomic; we model each such atomic
attempt (by any caller) as one step.  `time.monotonic` never decreases, so
attempt timestamps are nondecreasing and start at or after the construction
timestamp. -/

/-- State of `_AsyncTokenBucket`. -/
structure Bucket where
  rate : ℚ
  capacity : ℚ
  tokens : ℚ
  updated : ℚ
deriving DecidableEq

/-- Embeds `_AsyncTokenBucket.__init__`: full bucket, timestamp `now`. -/
def Bucket.init (rate capacity now : ℚ) : Bucket :=
  { rate := rate, capacity := capacity, tokens := capacity, updated := now }

/-- The refill performed at the top of each `acquire` attempt:
`tokens = min(capacity, tokens + elapsed * rate)`, `updated = now`. -/
def refillAt (b : Bucket) (now : ℚ) : Bucket :=
  { b with tokens := min b.capacity (b.tokens + (now - b.updated) * b.rate), updated := now }

/-- One atomic attempt of `acquire` at time `now`: refill, then take a token
when at least one is available (`tokens >= 1.0`); otherwise the caller will
sleep and retry. Returns the new state and whether the acquire succeeded. -/
def tryAcquire (b : Bucket) (now : ℚ) : Bucket × Bool :=
  let b2 := refillAt b now
  if 1 ≤ b2.tokens then ({ b2 with tokens := b2.tokens - 1 }, true) else (b2, false)

/-- A sequence of atomic acquire attempts at the given times. -/
def runAttempts (b : Bucket) : List ℚ → Bucket × List Bool
  | [] => (b, [])
  | t :: ts =>
    let r := tryAcquire b t
    let r2 := runAttempts r.1 ts
    (r2.1, r.2 :: r2.2)

/-- The attempt times are nondecreasing and start no earlier than `u`
(monotonic clock). -/
def validTimes (u : ℚ) : List ℚ → Prop
  | [] => True
  | t :: ts => u ≤ t ∧ validTimes t ts

instance (u : ℚ) (ts : List ℚ) : Decidable (validTimes u ts) := by
  induction ts generalizing u with
  | nil => exact isTrue trivial
  | cons t ts ih => exact @instDecidableAnd _ _ _ (ih t)

theorem tryAcquire_inv (b : Bucket) (now : ℚ) (hr : 0 ≤ b.rate)
    (hc : 0 ≤ b.capacity) (h0 : 0 ≤ b.tokens) (h1 : b.tokens ≤ b.capacity)
    (hu : b.updated ≤ now) :
    0 ≤ (tryAcquire b now).1.tokens ∧ (tryAcquire b now).1.tokens ≤ b.capacity ∧
      (tryAcquire b now).1.capacity = b.capacity ∧
      (tryAcquire b now).1.rate = b.rate ∧ (tryAcquire b now).1.updated = now := by
  have helap : 0 ≤ (now - b.updated) * b.rate :=
    mul_nonneg (by linarith) hr
  have hmin1 : min b.capacity (b.tokens + (now - b.updated) * b.rate) ≤ b.capacity :=
    min_le_left _ _
  have hmin0 : 0 ≤ min b.capacity (b.tokens + (now - b.updated) * b.rate) :=
    le_min hc (by linarith)
  unfold tryAcquire refillAt
  dsimp only
  by_cases h : 1 ≤ min b.capacity (b.tokens + (now - b.updated) * b.rate)
  · rw [if_pos h]
    dsimp only
    exact ⟨by linarith, by linarith, rfl, rfl, rfl⟩
  · rw [if_neg h]
    dsimp only
    exact ⟨hmin0, hmin1, rfl, rfl, rfl⟩

theorem runAttempts_cons (b : Bucket) (t : ℚ) (ts : List ℚ) :
    runAttempts b (t :: ts) =
      ((runAttempts (tryAcquire b t).1 ts).1,
        (tryAcquire b t).2 :: (runAttempts (tryAcquire b t).1 ts).2) := by
  simp [runAttempts]

theorem runAttempts_append (ts : List ℚ) :
    ∀ (b : Bucket) (us : List ℚ),
      runAttempts b (ts ++ us) =
        ((runAttempts (runAttempts b ts).1 us).1,
          (runAttempts b ts).2 ++ (runAttempts (runAttempts b ts).1 us).2) := by
  induction ts with
  | nil => intro b us; simp [runAttempts]
  | cons t ts ih =>
    intro b us
    rw [List.cons_append, runAttempts_cons, runAttempts_cons]
    dsimp only
    rw [ih (tryAcquire b t).1 us]
    simp

theorem runAttempts_inv (ts : List ℚ) :
    ∀ b : Bucket, 0 ≤ b.rate → 0 ≤ b.capacity → 0 ≤ b.tokens →
      b.tokens ≤ b.capacity → validTimes b.updated ts →
      0 ≤ (runAttempts b ts).1.tokens ∧
        (runAttempts b ts).1.tokens ≤ b.capacity ∧
        (runAttempts b ts).1.capacity = b.capacity ∧
        (runAttempts b ts).1.rate = b.rate := by
  induction ts with
  | nil => intro b hr hc h0 h1 _; exact ⟨h0, h1, rfl, rfl⟩
  | cons t ts ih =>
    intro b hr hc h0 h1 hv
    obtain ⟨hut, hv2⟩ := hv
    obtain ⟨j0, j1, jc, jr, ju⟩ := tryAcquire_inv b t hr hc h0 h1 hut
    have hv3 : validTimes (tryAcquire b t).1.updated ts := by rw [ju]; exact hv2
    have result := ih (tryAcquire b t).1 (by rw [jr]; exact hr) (by rw [jc]; exact hc)
      j0 (by rw [jc]; exact j1) hv3
    rw [jc] at result
    rw [runAttempts_cons]
    dsimp only
    exact ⟨result.1, result.2.1, result.2.2.1, (result.2.2.2).trans jr⟩

theorem tryAcquire_same (r cap tk t : ℚ) (h : tk ≤ cap) :
    tryAcquire ⟨r, cap, tk, t⟩ t =
      if 1 ≤ tk then (⟨r, cap, tk - 1, t⟩, true) else (⟨r, cap, tk, t⟩, false) := by
  unfold tryAcquire refillAt
  dsimp only
  rw [sub_self, zero_mul, add_zero, min_eq_right h]

theorem runAttempts_drain (k : Nat) :
    ∀ n : ℚ, (k : ℚ) ≤ n → n ≤ 20 →
      runAttempts ⟨4/5, 20, n, 0⟩ (List.replicate k 0) =
        (⟨4/5, 20, n - k, 0⟩, List.replicate k true) := by
  induction k with
  | zero => intro n _ _; simp [runAttempts]
  | succ j ih =>
    intro n hk h20
    have hk1 : (1 : ℚ) ≤ n := by
      have : ((j : ℚ) + 1) ≤ n := by push_cast at hk; linarith
      have hj : (0 : ℚ) ≤ (j : ℚ) := Nat.cast_nonneg j
      linarith
    rw [List.replicate_succ, runAttempts_cons, tryAcquire_same _ _ _ _ h20,
      if_pos hk1]
    dsimp only
    rw [ih (n - 1) (by push_cast at hk ⊢; linarith) (by linarith)]
    dsimp only
    have : n - 1 - (j : ℚ) = n - ((j : Nat) + 1 : Nat) := by push_cast; ring
    rw [this, List.replicate_succ]

/-- C8: along every sequence of atomic `acquire` attempts with a monotonic
clock, `0 ≤ tokens ≤ capacity` holds at every observation point (every prefix
of the attempt sequence is itself such a sequence); a fresh bucket with
capacity 20 holds 20 tokens; 20 back-to-back attempts all succeed immediately
and drain the bucket to 0; and the 21st attempt fails (that caller must
wait). -/
theorem c8_token_bucket :
    (∀ (rate cap t0 : ℚ) (ts : List ℚ), 0 ≤ rate → 0 ≤ cap →
      validTimes t0 ts →
      0 ≤ (runAttempts (Bucket.init rate cap t0) ts).1.tokens ∧
        (runAttempts (Bucket.init rate cap t0) ts).1.tokens ≤ cap) ∧
    (Bucket.init (4/5) 20 0).tokens = 20 ∧
    (runAttempts (Bucket.init (4/5) 20 0) (List.replicate 20 0)).2 =
      List.replicate 20 true ∧
    (runAttempts (Bucket.init (4/5) 20 0) (List.replicate 20 0)).1.tokens = 0 ∧
    (runAttempts (Bucket.init (4/5) 20 0) (List.replicate 21 0)).2 =
      List.replicate 20 true ++ [false] := by
  have hdrain := runAttempts_drain 20 20 (by norm_num) le_rfl
  have hinit : Bucket.init (4/5) 20 0 = ⟨4/5, 20, 20, 0⟩ := rfl
  refine ⟨?_, rfl, ?_, ?_, ?_⟩
  · intro rate cap t0 ts hr hc hv
    exact (runAttempts_inv ts (Bucket.init rate cap t0) hr hc hc le_rfl hv).imp
      id (fun h => h.1)
  · rw [hinit, hdrain]
  · rw [hinit, hdrain]; norm_num
  · have h21 : List.replicate 21 (0 : ℚ) = List.replicate 20 0 ++ [0] := by
      decide
    rw [hinit, h21, runAttempts_append, hdrain]
    dsimp only
    rw [runAttempts_cons, tryAcquire_same _ _ _ _ (by norm_num)]
    norm_num [runAttempts]

/-- Witness for C8 at a concrete instance: two attempts on a capacity-2
bucket with nondecreasing times keep the token count within bounds. -/
theorem c8_token_bucket_witness :
    0 ≤ (runAttempts (Bucket.init (4/5) 2 0) [0, 1]).1.tokens ∧
      (runAttempts (Bucket.init (4/5) 2 0) [0, 1]).1.tokens ≤ 2 :=
  c8_token_bucket.1 (4/5) 2 0 [0, 1] (by norm_num) (by norm_num)
    ⟨by norm_num, by norm_num, trivial⟩

end RiftRewind

namespace RiftRewind

/-! ## Deep paginator (`split_agg.fetch_matches_for_split`, lines 398-438, and
`split_agg.fetch_matches_since_patch`, lines 440-482)

Both functions page through match-id history strictly sequentially: per page
they fetch all match details concurrently (`asyncio.gather` with
`return_exceptions=True`), keep the in-range matches, compute the oldest
successfully parsed patch on the page (ignoring results that are exceptions
and versions parsing to `(0,0)`), and stop after the current page when that
oldest patch is strictly below the lower bound; they also stop when a page of
ids comes back empty (before processing it) and after `max_batches` pages.
We embed a page as the list of gathered per-match results (an `Except` per
match id, `Except.error` for a fetch that raised), and the paginator as a
recursion over the page list.  The two functions differ only in the keep
predicate, passed here as `keep`. -/

/-- One page of gathered match-detail results; `Except.error` marks a fetch
that raised inside `asyncio.gather(..., return_exceptions=True)`. -/
abbrev Page := List (Except Unit MatchInfo)

/-- The matches of a page that are kept: fetch succeeded and the keep
predicate (the patch-range test) holds. -/
def keptOnPage (keep : MatchInfo → Bool) (p : Page) : List MatchInfo :=
  p.filterMap (fun r =>
    match r with
    | Except.error _ => none
    | Except.ok m => if keep m then some m else none)

/-- The `oldest_this_page` accumulator: the minimum parsed patch over the
successfully fetched matches of the page whose patch is not `(0,0)`. -/
def oldestOnPage (p : Page) : Option (Nat × Nat) :=
  p.foldl (fun acc r =>
    match r with
    | Except.error _ => acc
    | Except.ok m =>
      let g := patch_tuple m.gameVersion
      if g = (0, 0) then acc
      else
        match acc with
        | none => some g
        | some o => if tupLtB g o then some g else some o) none

/-- The stop test evaluated after finishing a page:
`oldest_this_page and oldest_this_page < lo_t`. -/
def stopAfterPage (loT : Nat × Nat) (p : Page) : Bool :=
  match oldestOnPage p with
  | some o => tupLtB o loT
  | none => false

/-- The shared pagination loop.  Returns the collected matches and the number
of pages actually processed; recursion mirrors the `for _ in range(max_batches)`
loop with its three exits (page cap, empty id page, oldest patch below the
lower bound). -/
def pagesLoop (keep : MatchInfo → Bool) (loT : Nat × Nat) :
    Nat → List Page → List MatchInfo × Nat
  | 0, _ => ([], 0)
  | _ + 1, [] => ([], 0)
  | n + 1, p :: rest =>
    if p.isEmpty then ([], 0)
    else
      let kept := keptOnPage keep p
      if stopAfterPage loT p then (kept, 1)
      else
        let r2 := pagesLoop keep loT n rest
        (kept ++ r2.1, r2.2 + 1)

/-- Embeds `fetch_matches_for_split`: unknown split ids yield `[]`, otherwise
matches inside the (inclusive) split window are collected. -/
def fetch_matches_for_split (split : String) (max_batches : Nat)
    (pages : List Page) : List MatchInfo :=
  match splitsGet split with
  | none => []
  | some (lo, hi) =>
    (pagesLoop (fun m => within_patch_range m.gameVersion lo hi)
      (patch_tuple lo) max_batches pages).1

/-- Embeds `fetch_matches_since_patch`: keeps every match with parsed patch
`>= lo_patch`, no upper bound. -/
def fetch_matches_since_patch (lo_patch : String) (max_batches : Nat)
    (pages : List Page) : List MatchInfo :=
  (pagesLoop (fun m => tupLeB (patch_tuple lo_patch) (patch_tuple m.gameVersion))
    (patch_tuple lo_patch) max_batches pages).1

/-- Concatenation of the kept matches of a list of pages. -/
def collectPages (keep : MatchInfo → Bool) : List Page → List MatchInfo
  | [] => []
  | p :: rest => keptOnPage keep p ++ collectPages keep rest

/-- A minimal match record carrying only a game version, for paginator
examples. -/
def gvMatch (gv : String) : MatchInfo :=
  { queueId := some 420, gameVersion := gv, gameDuration := 1800, participants := [] }

/-- Example page 1: oldest successfully parsed patch 15.6. -/
def pageA : Page := [Except.ok (gvMatch "15.6.100.1"), Except.ok (gvMatch "15.7.1")]

/-- Example page 2: a failed detail fetch, one match at 15.5 and one at 15.3,
so the oldest parsed patch (15.3) is below the bound 15.5. -/
def pageB : Page :=
  [Except.error (), Except.ok (gvMatch "15.5.22.8"), Except.ok (gvMatch "15.3.9")]

/-- Example page 3: would contribute an in-range match if it were fetched. -/
def pageC : Page := [Except.ok (gvMatch "15.6.1")]

theorem pagesLoop_collect (keep : MatchInfo → Bool) (loT : Nat × Nat) :
    ∀ (n : Nat) (pages : List Page),
      (pagesLoop keep loT n pages).1 =
        collectPages keep (pages.take (pagesLoop keep loT n pages).2) ∧
      (pagesLoop keep loT n pages).2 ≤ n := by
  intro n
  induction n with
  | zero => intro pages; exact ⟨rfl, Nat.le_refl 0⟩
  | succ j ih =>
    intro pages
    match pages with
    | [] => exact ⟨rfl, by show (0 : Nat) ≤ j + 1; omega⟩
    | p :: rest =>
      show (pagesLoop keep loT (j + 1) (p :: rest)).1 = _ ∧ _
      unfold pagesLoop
      by_cases hemp : p.isEmpty
      · rw [if_pos hemp]; exact ⟨rfl, by omega⟩
      · rw [if_neg hemp]
        by_cases hstop : stopAfterPage loT p
        · rw [if_pos hstop]
          dsimp only
          refine ⟨?_, by omega⟩
          show keptOnPage keep p = collectPages keep [p]
          simp [collectPages]
        · rw [if_neg hstop]
          dsimp only
          obtain ⟨ihc, ihn⟩ := ih rest
          refine ⟨?_, by omega⟩
          rw [List.take_succ_cons]
          show keptOnPage keep p ++ (pagesLoop keep loT j rest).1 =
            keptOnPage keep p ++ collectPages keep (rest.take (pagesLoop keep loT j rest).2)
          rw [ihc]

theorem pagesLoop_stop_first (keep : MatchInfo → Bool) (loT : Nat × Nat) :
    ∀ (n : Nat) (pages : List Page) (i : Nat) (p : Page),
      i + 1 < (pagesLoop keep loT n pages).2 → pages[i]? = some p →
      stopAfterPage loT p = false := by
  intro n
  induction n with
  | zero => intro pages i p h; simp [pagesLoop] at h
  | succ j ih =>
    intro pages i p h hp
    match pages with
    | [] => simp [pagesLoop] at h
    | q :: rest =>
      unfold pagesLoop at h
      by_cases hemp : q.isEmpty
      · rw [if_pos hemp] at h; simp at h
      · rw [if_neg hemp] at h
        by_cases hstop : stopAfterPage loT q
        · rw [if_pos hstop] at h; dsimp only at h; omega
        · rw [if_neg hstop] at h
          dsimp only at h
          match i with
          | 0 =>
            have : q = p := by simpa using hp
            rw [← this]
            exact eq_false_of_ne_true hstop
          | Nat.succ i2 =>
            have hp2 : rest[i2]? = some p := by simpa using hp
            exact ih rest i2 p (by omega) hp2

/-- C6: the deep paginator processes pages strictly sequentially, keeping
from every processed page exactly the successfully fetched matches whose
patch passes the range test (failed detail fetches are skipped), processes at
most `max_batches` pages, stops only after the first page whose oldest
successfully parsed patch is strictly below the lower bound (every earlier
processed page fails the stop test), and on the concrete example — pages with
oldest patches 15.6 then 15.3, lower bound 15.5 — it stops after the second
page, keeping from that page only the match with patch `>= 15.5` and skipping
the failed fetch, never touching the third page. -/
theorem c6_deep_paginator :
    (∀ (keep : MatchInfo → Bool) (loT : Nat × Nat) (n : Nat) (pages : List Page),
      (pagesLoop keep loT n pages).1 =
        collectPages keep (pages.take (pagesLoop keep loT n pages).2)) ∧
    (∀ (keep : MatchInfo → Bool) (loT : Nat × Nat) (n : Nat) (pages : List Page),
      (pagesLoop keep loT n pages).2 ≤ n) ∧
    (∀ (keep : MatchInfo → Bool) (loT : Nat × Nat) (n : Nat) (pages : List Page)
      (i : Nat) (p : Page),
      i + 1 < (pagesLoop keep loT n pages).2 → pages[i]? = some p →
      stopAfterPage loT p = false) ∧
    fetch_matches_since_patch "15.5" 180 [pageA, pageB, pageC] =
      [gvMatch "15.6.100.1", gvMatch "15.7.1", gvMatch "15.5.22.8"] ∧
    (pagesLoop (fun m => tupLeB (patch_tuple "15.5") (patch_tuple m.gameVersion))
      (patch_tuple "15.5") 180 [pageA, pageB, pageC]).2 = 2 := by
  refine ⟨?_, ?_, pagesLoop_stop_first, ?_, ?_⟩
  · intro keep loT n pages; exact (pagesLoop_collect keep loT n pages).1
  · intro keep loT n pages; exact (pagesLoop_collect keep loT n pages).2
  · decide
  · decide

/-- Witness for C6 at concrete inputs: on the example pages the first page
(oldest patch 15.6, not below the bound 15.5) indeed fails the stop test,
instantiating the only implication of the theorem. -/
theorem c6_deep_paginator_witness :
    stopAfterPage (patch_tuple "15.5") pageA = false :=
  c6_deep_paginator.2.2.1
    (fun m => tupLeB (patch_tuple "15.5") (patch_tuple m.gameVersion))
    (patch_tuple "15.5") 180 [pageA, pageB, pageC] 0 pageA (by decide) rfl

end RiftRewind

namespace RiftRewind

/-! ## Champion aggregation (`split_agg.aggregate_best_champ` lines 140-239 and
`split_agg.aggregate_champ_table` lines 278-368)

Both functions run the identical aggregation loop over the match sample
(duplicated verbatim in the source); it is embedded once below as `buildPer`.
The `per` defaultdict is insertion-ordered, embedded as an association list
with update-or-append semantics (`bumpPer`). -/

/-- Embeds `ROLE_MAP.get(teamPosition, "unknown")`. -/
def ROLE_MAP (pos : String) : String :=
  if pos = "TOP" then "top"
  else if pos = "JUNGLE" then "jungle"
  else if pos = "MIDDLE" then "mid"
  else if pos = "BOTTOM" then "adc"
  else if pos = "UTILITY" then "support"
  else "unknown"

/-- Embeds `QUEUE_BUCKET.get(queueId)`. -/
def QUEUE_BUCKET (qid : Nat) : Option String :=
  if qid = 420 then some "solo"
  else if qid = 440 then some "flex"
  else if qid = 400 then some "normal"
  else if qid = 430 then some "normal"
  else if qid = 450 then some "aram"
  else if qid = 700 then some "clash"
  else none

/-- Embeds `MIN_GAMES_FOR_BEST = 15`. -/
def MIN_GAMES_FOR_BEST : Nat := 15

/-- The per-champion accumulator dict of the aggregation loop.  Sums of the
per-match kill-participation and damage-share fractions are exact rationals
(the source computes them with float division). -/
structure Agg where
  games : Nat
  wins : Nat
  k : Nat
  d : Nat
  a : Nat
  time : Nat
  cs : Nat
  vision : Nat
  kp_sum : ℚ
  dmg_share_sum : ℚ
  role : String
deriving DecidableEq

/-- The defaultdict initial value for a champion. -/
def Agg.initA : Agg :=
  { games := 0, wins := 0, k := 0, d := 0, a := 0, time := 0, cs := 0,
    vision := 0, kp_sum := 0, dmg_share_sum := 0, role := "unknown" }

/-- Embeds `_per_match_team_totals`: summed kills and champion damage of the
participants on the given team. -/
def team_totals (info : MatchInfo) (team_id : Nat) : Nat × Nat :=
  info.participants.foldl
    (fun acc p =>
      if p.teamId = team_id then
        (acc.1 + p.kills, acc.2 + p.totalDamageDealtToChampions)
      else acc)
    (0, 0)

/-- Embeds `next((p for p in parts if p.get("puuid") == puuid), None)`. -/
def findYou (info : MatchInfo) (puuid : String) : Option Participant :=
  info.participants.find? (fun p => p.puuid == puuid)

/-- One iteration of the aggregation loop body applied to the accumulator of
the played champion.  `role or r["role"]` keeps the previous role only when
the new label is the empty string (it never is: `ROLE_MAP` defaults to
`"unknown"`). -/
def updateAgg (info : MatchInfo) (you : Participant) (r : Agg) : Agg :=
  let role := ROLE_MAP you.teamPosition
  let tt := team_totals info you.teamId
  let kp_match : ℚ :=
    if 0 < tt.1 then ((you.kills : ℚ) + (you.assists : ℚ)) / (tt.1 : ℚ) else 0
  let ds_match : ℚ :=
    if 0 < tt.2 then (you.totalDamageDealtToChampions : ℚ) / (tt.2 : ℚ) else 0
  { games := r.games + 1
    wins := r.wins + (if you.win then 1 else 0)
    k := r.k + you.kills
    d := r.d + you.deaths
    a := r.a + you.assists
    time := r.time + you.timePlayed.getD info.gameDuration
    cs := r.cs + you.totalMinionsKilled + you.neutralMinionsKilled
    vision := r.vision + you.visionScore
    kp_sum := r.kp_sum + kp_match
    dmg_share_sum := r.dmg_share_sum + ds_match
    role := if role ≠ "" then role else r.role }

/-- Update-or-append on the insertion-ordered `per` dict. -/
def bumpPer (per : List (String × Agg)) (champ : String) (f : Agg → Agg) :
    List (String × Agg) :=
  match per with
  | [] => [(champ, f Agg.initA)]
  | (c, r) :: rest =>
    if c = champ then (c, f r) :: rest else (c, r) :: bumpPer rest champ f

/-- Dict lookup on the `per` association list. -/
def lookupPer (per : List (String × Agg)) (champ : String) : Option Agg :=
  (per.find? (fun kv => kv.1 == champ)).map (fun kv => kv.2)

/-- The aggregation loop, processing matches in sample order starting from a
given dict state. -/
def buildPerFrom (puuid : String) : List (String × Agg) → List MatchInfo →
    List (String × Agg)
  | per, [] => per
  | per, m :: rest =>
    match findYou m puuid with
    | none => buildPerFrom puuid per rest
    | some you => buildPerFrom puuid (bumpPer per you.championName (updateAgg m you)) rest

/-- The full aggregation loop shared by `aggregate_best_champ` and
`aggregate_champ_table`. -/
def buildPer (ms : List MatchInfo) (puuid : String) : List (String × Agg) :=
  buildPerFrom puuid [] ms

/-- The role label of the last match of the sample in which the target player
played the given champion. -/
def lastRoleFor (puuid champ : String) : List MatchInfo → Option String
  | [] => none
  | m :: rest =>
    match lastRoleFor puuid champ rest with
    | some r => some r
    | none =>
      match findYou m puuid with
      | some you =>
        if you.championName = champ then some (ROLE_MAP you.teamPosition) else none
      | none => none

theorem ROLE_MAP_ne_empty (s : String) : ROLE_MAP s ≠ "" := by
  unfold ROLE_MAP
  split_ifs <;> decide

theorem updateAgg_role (info : MatchInfo) (you : Participant) (r : Agg) :
    (updateAgg info you r).role = ROLE_MAP you.teamPosition := by
  unfold updateAgg
  dsimp only
  rw [if_pos (ROLE_MAP_ne_empty you.teamPosition)]

theorem lookupPer_bump_same (champ : String) (f : Agg → Agg) :
    ∀ per : List (String × Agg),
      lookupPer (bumpPer per champ f) champ =
        some (f ((lookupPer per champ).getD Agg.initA)) := by
  intro per
  induction per with
  | nil => simp [bumpPer, lookupPer]
  | cons kv rest ih =>
    obtain ⟨c, r⟩ := kv
    by_cases h : c = champ
    · subst h
      simp [bumpPer, lookupPer]
    · have hbeq : (c == champ) = false := beq_eq_false_iff_ne.mpr h
      unfold bumpPer
      rw [if_neg h]
      unfold lookupPer at ih ⊢
      simp only [List.find?_cons, hbeq]
      exact ih

theorem lookupPer_bump_other (champ c : String) (f : Agg → Agg) (hne : c ≠ champ) :
    ∀ per : List (String × Agg),
      lookupPer (bumpPer per champ f) c = lookupPer per c := by
  intro per
  have hbeqc : (champ == c) = false :=
    beq_eq_false_iff_ne.mpr (fun he => hne he.symm)
  induction per with
  | nil =>
    unfold bumpPer lookupPer
    simp [hbeqc]
  | cons kv rest ih =>
    obtain ⟨c2, r⟩ := kv
    by_cases h : c2 = champ
    · subst h
      unfold bumpPer
      rw [if_pos rfl]
      unfold lookupPer
      simp only [List.find?_cons, hbeqc]
    · unfold bumpPer
      rw [if_neg h]
      unfold lookupPer at ih ⊢
      simp only [List.find?_cons]
      by_cases h2 : (c2 == c) = true
      · rw [h2]
      · rw [Bool.not_eq_true] at h2
        rw [h2]
        exact ih

theorem lastRoleFor_cons (puuid champ : String) (m : MatchInfo)
    (rest : List MatchInfo) :
    lastRoleFor puuid champ (m :: rest) =
      match lastRoleFor puuid champ rest with
      | some r => some r
      | none =>
        match findYou m puuid with
        | some you =>
          if you.championName = champ then some (ROLE_MAP you.teamPosition) else none
        | none => none := rfl

theorem lastRoleFor_cons_none (puuid champ : String) (m : MatchInfo)
    (rest : List MatchInfo) (h : findYou m puuid = none) :
    lastRoleFor puuid champ (m :: rest) = lastRoleFor puuid champ rest := by
  rw [lastRoleFor_cons, h]
  cases lastRoleFor puuid champ rest <;> rfl

theorem lastRoleFor_cons_other (puuid champ : String) (m : MatchInfo)
    (rest : List MatchInfo) (you : Participant) (h : findYou m puuid = some you)
    (hc : ¬(you.championName = champ)) :
    lastRoleFor puuid champ (m :: rest) = lastRoleFor puuid champ rest := by
  rw [lastRoleFor_cons, h]
  cases lastRoleFor puuid champ rest with
  | some r => rfl
  | none =>
    dsimp only
    rw [if_neg hc]

theorem buildPerFrom_role (puuid champ : String) :
    ∀ (ms : List MatchInfo) (per : List (String × Agg)) (agg : Agg),
      lookupPer (buildPerFrom puuid per ms) champ = some agg →
      agg.role = (lastRoleFor puuid champ ms).getD
        (((lookupPer per champ).map (fun a2 => a2.role)).getD "unknown") := by
  intro ms
  induction ms with
  | nil =>
    intro per agg h
    unfold buildPerFrom at h
    rw [h]
    rfl
  | cons m rest ih =>
    intro per agg h
    unfold buildPerFrom at h
    cases hy : findYou m puuid with
    | none =>
      rw [hy] at h
      dsimp only at h
      rw [lastRoleFor_cons_none puuid champ m rest hy]
      exact ih per agg h
    | some you =>
      rw [hy] at h
      dsimp only at h
      by_cases hc : you.championName = champ
      · subst hc
        have step := ih (bumpPer per you.championName (updateAgg m you)) agg h
        rw [lookupPer_bump_same you.championName (updateAgg m you) per] at step
        rw [lastRoleFor_cons, hy]
        dsimp only
        rw [if_pos rfl]
        cases hrest : lastRoleFor puuid you.championName rest with
        | some r =>
          rw [hrest] at step
          exact step
        | none =>
          rw [hrest] at step
          dsimp only [Option.map, Option.getD] at step ⊢
          rw [step, updateAgg_role]
      · have step := ih (bumpPer per you.championName (updateAgg m you)) agg h
        rw [lookupPer_bump_other you.championName champ (updateAgg m you)
          (fun he => hc he.symm) per] at step
        rw [lastRoleFor_cons_other puuid champ m rest you hy hc]
        exact step

end RiftRewind

namespace RiftRewind

/-! ## Scoring (`split_agg._wilson_lower_bound`, `_cap`, `_norm`,
`_role_weights`, and the scoring bodies of `aggregate_best_champ` and
`aggregate_champ_table`)

The source computes these with floats; they are embedded over the reals since
they use `math.sqrt` and `math.log1p`.  `round(x, 2)` and the numeric content
of the `_pct` percent string (`f"{x*100:.2f}%"`) are embedded as rounding to
two decimals, half up; Python rounds exact halves to even, but no value in
the theorems below lies on an exact half. -/

noncomputable section

/-- Two-decimal rounding, embedding Python `round(x, 2)` away from exact
half-ties. -/
def pyRound2 (x : ℝ) : ℝ := ((⌊x * 100 + 1 / 2⌋ : ℤ) : ℝ) / 100

/-- The numeric content of `_pct(x)` (the string `f"{x*100:.2f}%"`). -/
def pctNum (x : ℝ) : ℝ := pyRound2 (x * 100)

/-- Embeds `_wilson_lower_bound(p, n, z)`. -/
def wilson_lower_bound (p : ℝ) (n : Nat) (z : ℝ) : ℝ :=
  if n = 0 then 0
  else
    (p + z * z / (2 * (n : ℝ)) -
        z * Real.sqrt (p * (1 - p) / (n : ℝ) + z * z / (4 * (n : ℝ) * (n : ℝ)))) /
      (1 + z * z / (n : ℝ))

/-- Embeds `_cap(x, hi) = min(max(x, 0.0), hi)`. -/
def capRatio (x hi : ℝ) : ℝ := min (max x 0) hi

/-- Embeds `_norm(x, target, cap_hi)`. -/
def normTo (x target cap_hi : ℝ) : ℝ :=
  if target ≤ 1 / 1000000000 then 0 else capRatio (x / target) cap_hi

/-- The weight dict returned by `_role_weights`. -/
structure RoleW where
  wr : ℝ
  kda : ℝ
  cs : ℝ
  kp : ℝ
  vision : ℝ
  dmgshare : ℝ

/-- Embeds `_role_weights(role)` (the source lowercases
`(role or "unknown")` first). -/
def role_weights (role : String) : RoleW :=
  let r := (if role = "" then "unknown" else role).toLower
  if r = "top" ∨ r = "mid" ∨ r = "adc" then
    { wr := 1, kda := 0.6, cs := 0.7, kp := 0.4, vision := 0.2, dmgshare := 0.8 }
  else if r = "jungle" then
    { wr := 1, kda := 0.6, cs := 0.4, kp := 0.8, vision := 0.3, dmgshare := 0.5 }
  else if r = "support" then
    { wr := 0.9, kda := 0.5, cs := 0, kp := 0.8, vision := 1, dmgshare := 0.2 }
  else
    { wr := 1, kda := 0.5, cs := 0.4, kp := 0.6, vision := 0.3, dmgshare := 0.5 }

/-- The per-champion derived metrics computed at the top of both scoring
loops. -/
structure Metrics where
  wr : ℝ
  kda : ℝ
  cs_min : ℝ
  vision_min : ℝ
  kp : ℝ
  dmg_share : ℝ

/-- The derived metrics of an accumulator row: win rate, KDA, CS and vision
per minute (`time_min = max(1, time/60)`), and averaged kill participation
and damage share. -/
def metricsOf (r : Agg) : Metrics :=
  { wr := (r.wins : ℝ) / max 1 (r.games : ℝ)
    kda := ((r.k : ℝ) + (r.a : ℝ)) / max 1 (r.d : ℝ)
    cs_min := (r.cs : ℝ) / max 1 ((r.time : ℝ) / 60)
    vision_min := (r.vision : ℝ) / max 1 ((r.time : ℝ) / 60)
    kp := ((r.kp_sum : ℚ) : ℝ) / max 1 (r.games : ℝ)
    dmg_share := ((r.dmg_share_sum : ℚ) : ℝ) / max 1 (r.games : ℝ) }

/-- The weighted sum of the five normalized secondary metrics, common to both
scoring bodies. -/
def secondaryOf (role : String) (mt : Metrics) : ℝ :=
  let w := role_weights role
  w.kda * normTo mt.kda 4 1.2 + w.cs * normTo mt.cs_min 7 1.2 +
    w.kp * normTo mt.kp 0.6 1.2 + w.vision * normTo mt.vision_min 1 1.3 +
    w.dmgshare * normTo mt.dmg_share 0.25 1.4

/-- Embeds `VOLUME_BONUS_LAMBDA = 25.0`. -/
def VOLUME_BONUS_LAMBDA : ℝ := 25

/-- Embeds `VOLUME_BONUS_CAP = 0.50`. -/
def VOLUME_BONUS_CAP : ℝ := 0.5

/-- The score of one champion row in `aggregate_best_champ`: Wilson lower
bound at `z = 1.96`, `60/20` weighting, the `log1p` stability dampener, and
the capped volume bonus. -/
def bestScoreOf (total_games : Nat) (r : Agg) : ℝ :=
  let mt := metricsOf r
  let base := 60 * wilson_lower_bound mt.wr r.games 1.96 + 20 * secondaryOf r.role mt
  let stability :=
    (Real.log (1 + (r.games : ℝ)) / Real.log (1 + 40)) * min 1 ((r.games : ℝ) / 20)
  let s2 := base * stability
  if 0 < total_games then
    s2 + VOLUME_BONUS_LAMBDA * min ((r.games : ℝ) / (total_games : ℝ)) VOLUME_BONUS_CAP
  else s2

/-- The score of one champion row in `aggregate_champ_table`: Wilson lower
bound at `z = 1.2816`, `100/20` weighting, the `min(1, n/5)` dampener, and
the capped volume bonus. -/
def tableScoreOf (total_games : Nat) (r : Agg) : ℝ :=
  let mt := metricsOf r
  let base := 100 * wilson_lower_bound mt.wr r.games 1.2816 + 20 * secondaryOf r.role mt
  let s2 := base * min 1 ((r.games : ℝ) / 5)
  if 0 < total_games then
    s2 + VOLUME_BONUS_LAMBDA * min ((r.games : ℝ) / (total_games : ℝ)) VOLUME_BONUS_CAP
  else s2

/-- The `best_row` dict built by `aggregate_best_champ`. -/
structure BestRow where
  name : String
  role : String
  games : Nat
  winrate : ℝ
  kda : ℝ
  csPerMin : ℝ
  visionPerMin : ℝ
  kp : ℝ
  dmgShare : ℝ
  score : ℝ

/-- A row dict of `aggregate_champ_table` (it additionally reports `wins`). -/
structure TableRow where
  name : String
  role : String
  games : Nat
  wins : Nat
  winrate : ℝ
  kda : ℝ
  csPerMin : ℝ
  visionPerMin : ℝ
  kp : ℝ
  dmgShare : ℝ
  score : ℝ

/-- Builds the `best_row` dict for a champion from its accumulator and
score. -/
def mkBestRow (champ : String) (r : Agg) (score : ℝ) : BestRow :=
  let mt := metricsOf r
  { name := champ, role := r.role, games := r.games, winrate := pctNum mt.wr,
    kda := pyRound2 mt.kda, csPerMin := pyRound2 mt.cs_min,
    visionPerMin := pyRound2 mt.vision_min, kp := pctNum mt.kp,
    dmgShare := pctNum mt.dmg_share, score := pyRound2 score }

/-- Builds a table row for a champion. -/
def mkTableRow (total_games : Nat) (champ : String) (r : Agg) : TableRow :=
  let mt := metricsOf r
  { name := champ, role := r.role, games := r.games, wins := r.wins,
    winrate := pctNum mt.wr, kda := pyRound2 mt.kda, csPerMin := pyRound2 mt.cs_min,
    visionPerMin := pyRound2 mt.vision_min, kp := pctNum mt.kp,
    dmgShare := pctNum mt.dmg_share, score := pyRound2 (tableScoreOf total_games r) }

/-- The selection loop of `aggregate_best_champ`: champions with fewer than
`MIN_GAMES_FOR_BEST` games are skipped; a strict `score > best_score`
comparison keeps the earliest-encountered champion on ties. -/
def bestLoop (total_games : Nat) :
    List (String × Agg) → Option BestRow → ℝ → Option BestRow
  | [], best, _ => best
  | (champ, r) :: rest, best, best_score =>
    if r.games < MIN_GAMES_FOR_BEST then bestLoop total_games rest best best_score
    else
      if best_score < bestScoreOf total_games r then
        bestLoop total_games rest
          (some (mkBestRow champ r (bestScoreOf total_games r)))
          (bestScoreOf total_games r)
      else bestLoop total_games rest best best_score

/-- Embeds `aggregate_best_champ`. -/
def aggregate_best_champ (ms : List MatchInfo) (puuid : String) : Option BestRow :=
  if ms.isEmpty then none
  else if (buildPer ms puuid).isEmpty then none
  else
    bestLoop ((buildPer ms puuid).map (fun kv => kv.2.games)).sum
      (buildPer ms puuid) none (-1)

/-- Stable descending insertion by `score`, matching the result of the stable
`rows.sort(key=lambda r: r["score"], reverse=True)`. -/
def insertRowDesc (x : TableRow) : List TableRow → List TableRow
  | [] => [x]
  | y :: ys => if y.score ≤ x.score then x :: y :: ys else y :: insertRowDesc x ys

/-- Stable descending sort by `score`. -/
def sortRowsDesc : List TableRow → List TableRow
  | [] => []
  | x :: xs => insertRowDesc x (sortRowsDesc xs)

/-- Embeds `aggregate_champ_table` (no minimum-games floor; rows sorted by
score, descending). -/
def aggregate_champ_table (ms : List MatchInfo) (puuid : String) : List TableRow :=
  if ms.isEmpty then []
  else
    sortRowsDesc ((buildPer ms puuid).map (fun kv =>
      mkTableRow ((buildPer ms puuid).map (fun kv2 => kv2.2.games)).sum kv.1 kv.2))

end

theorem mem_insertRowDesc (x a : TableRow) :
    ∀ l : List TableRow, a ∈ insertRowDesc x l ↔ a = x ∨ a ∈ l := by
  intro l
  induction l with
  | nil => simp [insertRowDesc]
  | cons y ys ih =>
    unfold insertRowDesc
    by_cases h : y.score ≤ x.score
    · rw [if_pos h]
      simp
    · rw [if_neg h]
      simp only [List.mem_cons, ih]
      tauto

theorem mem_sortRowsDesc (a : TableRow) :
    ∀ l : List TableRow, a ∈ sortRowsDesc l ↔ a ∈ l := by
  intro l
  induction l with
  | nil => simp [sortRowsDesc]
  | cons y ys ih =>
    unfold sortRowsDesc
    rw [mem_insertRowDesc, ih]
    simp

end RiftRewind

namespace RiftRewind

/-! ## Nonnegativity of the best-champion score -/

theorem wilson_nonneg (p : ℝ) (n : Nat) (z : ℝ) (hp0 : 0 ≤ p) (hp1 : p ≤ 1)
    (hz : 0 ≤ z) : 0 ≤ wilson_lower_bound p n z := by
  unfold wilson_lower_bound
  by_cases hn : n = 0
  · rw [if_pos hn]
  · rw [if_neg hn]
    have hnpos : (0 : ℝ) < (n : ℝ) := by exact_mod_cast Nat.pos_of_ne_zero hn
    set S : ℝ := p * (1 - p) / (n : ℝ) + z * z / (4 * (n : ℝ) * (n : ℝ)) with hSdef
    have hS0 : 0 ≤ S := by
      have h1 : 0 ≤ p * (1 - p) := mul_nonneg hp0 (by linarith)
      have h2 : 0 ≤ z * z := mul_self_nonneg z
      apply add_nonneg (div_nonneg h1 hnpos.le)
      apply div_nonneg h2
      positivity
    have hcenter : 0 ≤ p + z * z / (2 * (n : ℝ)) := by positivity
    have hmargin0 : 0 ≤ z * Real.sqrt S := mul_nonneg hz (Real.sqrt_nonneg S)
    have hkey : (z * Real.sqrt S) ^ 2 ≤ (p + z * z / (2 * (n : ℝ))) ^ 2 := by
      have hsq : (z * Real.sqrt S) ^ 2 = z * z * S := by
        rw [mul_pow, Real.sq_sqrt hS0]
        ring
      rw [hsq, hSdef]
      have expand : (p + z * z / (2 * (n : ℝ))) ^ 2 -
          z * z * (p * (1 - p) / (n : ℝ) + z * z / (4 * (n : ℝ) * (n : ℝ))) =
          p ^ 2 * (1 + z * z / (n : ℝ)) := by
        field_simp
        ring
      have hfac : 0 ≤ p ^ 2 * (1 + z * z / (n : ℝ)) := by positivity
      linarith
    have hcm : z * Real.sqrt S ≤ p + z * z / (2 * (n : ℝ)) :=
      calc z * Real.sqrt S = Real.sqrt ((z * Real.sqrt S) ^ 2) :=
            (Real.sqrt_sq hmargin0).symm
        _ ≤ Real.sqrt ((p + z * z / (2 * (n : ℝ))) ^ 2) := Real.sqrt_le_sqrt hkey
        _ = p + z * z / (2 * (n : ℝ)) := Real.sqrt_sq hcenter
    apply div_nonneg
    · linarith
    · positivity

theorem normTo_nonneg (x target cap_hi : ℝ) (hc : 0 ≤ cap_hi) :
    0 ≤ normTo x target cap_hi := by
  unfold normTo capRatio
  split_ifs
  · exact le_refl 0
  · exact le_min (le_max_right _ 0) hc

theorem role_weights_nonneg (role : String) :
    0 ≤ (role_weights role).wr ∧ 0 ≤ (role_weights role).kda ∧
    0 ≤ (role_weights role).cs ∧ 0 ≤ (role_weights role).kp ∧
    0 ≤ (role_weights role).vision ∧ 0 ≤ (role_weights role).dmgshare := by
  unfold role_weights
  dsimp only
  by_cases h1 : (if role = "" then "unknown" else role).toLower = "top" ∨
      (if role = "" then "unknown" else role).toLower = "mid" ∨
      (if role = "" then "unknown" else role).toLower = "adc"
  · rw [if_pos h1]; norm_num
  · rw [if_neg h1]
    by_cases h2 : (if role = "" then "unknown" else role).toLower = "jungle"
    · rw [if_pos h2]; norm_num
    · rw [if_neg h2]
      by_cases h3 : (if role = "" then "unknown" else role).toLower = "support"
      · rw [if_pos h3]; norm_num
      · rw [if_neg h3]; norm_num

theorem secondaryOf_nonneg (role : String) (mt : Metrics) :
    0 ≤ secondaryOf role mt := by
  obtain ⟨h1, h2, h3, h4, h5, h6⟩ := role_weights_nonneg role
  unfold secondaryOf
  have n1 := normTo_nonneg mt.kda 4 1.2 (by norm_num)
  have n2 := normTo_nonneg mt.cs_min 7 1.2 (by norm_num)
  have n3 := normTo_nonneg mt.kp 0.6 1.2 (by norm_num)
  have n4 := normTo_nonneg mt.vision_min 1 1.3 (by norm_num)
  have n5 := normTo_nonneg mt.dmg_share 0.25 1.4 (by norm_num)
  have m1 := mul_nonneg h2 n1
  have m2 := mul_nonneg h3 n2
  have m3 := mul_nonneg h4 n3
  have m4 := mul_nonneg h5 n4
  have m5 := mul_nonneg h6 n5
  dsimp only
  linarith

theorem bestScoreOf_eq (tg : Nat) (r : Agg) :
    bestScoreOf tg r =
      (60 * wilson_lower_bound (metricsOf r).wr r.games 1.96 +
          20 * secondaryOf r.role (metricsOf r)) *
        ((Real.log (1 + (r.games : ℝ)) / Real.log (1 + 40)) *
          min 1 ((r.games : ℝ) / 20)) +
      (if 0 < tg then
        VOLUME_BONUS_LAMBDA * min ((r.games : ℝ) / (tg : ℝ)) VOLUME_BONUS_CAP
      else 0) := by
  simp only [bestScoreOf]
  split_ifs <;> ring

theorem bestScore_nonneg (tg : Nat) (r : Agg)
    (hw : (r.wins : ℝ) ≤ max 1 (r.games : ℝ)) : 0 ≤ bestScoreOf tg r := by
  rw [bestScoreOf_eq]
  have hmaxpos : (0 : ℝ) < max 1 (r.games : ℝ) :=
    lt_of_lt_of_le zero_lt_one (le_max_left _ _)
  have hwr0 : 0 ≤ (metricsOf r).wr := div_nonneg (Nat.cast_nonneg _) hmaxpos.le
  have hwr1 : (metricsOf r).wr ≤ 1 := by
    show (r.wins : ℝ) / max 1 (r.games : ℝ) ≤ 1
    rw [div_le_one hmaxpos]
    exact hw
  have hwil := wilson_nonneg (metricsOf r).wr r.games 1.96 hwr0 hwr1 (by norm_num)
  have hsec := secondaryOf_nonneg r.role (metricsOf r)
  have hbase : 0 ≤ 60 * wilson_lower_bound (metricsOf r).wr r.games 1.96 +
      20 * secondaryOf r.role (metricsOf r) := by linarith
  have hlog1 : 0 ≤ Real.log (1 + (r.games : ℝ)) := by
    apply Real.log_nonneg
    have := Nat.cast_nonneg (α := ℝ) r.games
    linarith
  have hlog2 : (0 : ℝ) < Real.log (1 + 40) := Real.log_pos (by norm_num)
  have hstab : 0 ≤ (Real.log (1 + (r.games : ℝ)) / Real.log (1 + 40)) *
      min 1 ((r.games : ℝ) / 20) := by
    apply mul_nonneg (div_nonneg hlog1 hlog2.le)
    exact le_min zero_le_one (by positivity)
  have hmain := mul_nonneg hbase hstab
  split_ifs with h
  · have hbon : 0 ≤ VOLUME_BONUS_LAMBDA *
        min ((r.games : ℝ) / (tg : ℝ)) VOLUME_BONUS_CAP := by
      apply mul_nonneg (by norm_num [VOLUME_BONUS_LAMBDA])
      exact le_min (by positivity) (by norm_num [VOLUME_BONUS_CAP])
    linarith
  · linarith

end RiftRewind

namespace RiftRewind

/-! ## Claims C4 and C10 -/

/-- A match in which the target player `"P"` plays the given champion in the
given team position, with all counting stats zero (so the kill-participation
and damage-share fractions are the 0-denominator case). -/
def mkPart (champ posn : String) (w : Bool) : Participant :=
  { puuid := "P", championName := champ, kills := 0, deaths := 0, assists := 0,
    teamPosition := posn, teamId := 100, totalMinionsKilled := 0,
    neutralMinionsKilled := 0, visionScore := 0,
    totalDamageDealtToChampions := 0, win := w, timePlayed := some 0 }

/-- A one-participant match for the target player. -/
def mkMatch (champ posn : String) (w : Bool) : MatchInfo :=
  { queueId := some 420, gameVersion := "15.10.1", gameDuration := 0,
    participants := [mkPart champ posn w] }

/-- Champion `X` played three times in a `TOP`-mapped position and once, in
the LAST match processed, with an unmapped (empty) position. -/
def exC4 : List MatchInfo :=
  [mkMatch "X" "TOP" true, mkMatch "X" "TOP" true, mkMatch "X" "TOP" true,
    mkMatch "X" "" true]

/-- The accumulator the aggregation loop produces for `X` on `exC4`. -/
def aggX4 : Agg :=
  { games := 4, wins := 4, k := 0, d := 0, a := 0, time := 0, cs := 0,
    vision := 0, kp_sum := 0, dmg_share_sum := 0, role := "unknown" }

theorem hbuildC4 : buildPer exC4 "P" = [("X", aggX4)] := by
  simp [buildPer, buildPerFrom, exC4, mkMatch, mkPart, findYou, bumpPer,
    updateAgg, team_totals, ROLE_MAP, Agg.initA, aggX4]

/-- C4, counterexample: the claim says the role assigned to a champion is the
majority per-match role label, so three `TOP`-mapped games and one
unknown-position game yield `"top"` regardless of order.  The code instead
overwrites the role on every match (`role or r["role"]`, and the new label is
never falsy), so with the unknown-position match last the champion aggregate
reports role `"unknown"`. -/
theorem c4_counterexample :
    (aggregate_champ_table exC4 "P").map (fun row => row.role) = ["unknown"] ∧
    ("unknown" : String) ≠ "top" := by
  constructor
  · unfold aggregate_champ_table
    rw [if_neg (by decide), hbuildC4]
    simp [sortRowsDesc, insertRowDesc, mkTableRow, aggX4]
  · decide

/-- C4, amended: the role assigned to a champion in the champion aggregate is
the role label of the LAST match of the sample in which the target player
played that champion (the loop overwrites the role each match and the label
is never empty), not a majority vote; in particular `exC4` (three top-mapped
matches, then one unknown-position match) yields `"unknown"`. -/
theorem c4_amended :
    (∀ (ms : List MatchInfo) (puuid champ : String) (agg : Agg),
      lookupPer (buildPer ms puuid) champ = some agg →
      agg.role = (lastRoleFor puuid champ ms).getD "unknown") ∧
    lastRoleFor "P" "X" exC4 = some "unknown" ∧
    (aggregate_champ_table exC4 "P").map (fun row => row.role) =
      [(lastRoleFor "P" "X" exC4).getD "unknown"] := by
  refine ⟨?_, by decide, ?_⟩
  · intro ms puuid champ agg h
    have step := buildPerFrom_role puuid champ ms [] agg h
    simpa [lookupPer] using step
  · unfold aggregate_champ_table
    rw [if_neg (by decide), hbuildC4]
    simp [sortRowsDesc, insertRowDesc, mkTableRow, aggX4]
    decide

/-- Witness for C4 (amended), instantiating the role law at the concrete
sample `exC4` and champion `X`. -/
theorem c4_amended_witness :
    aggX4.role = (lastRoleFor "P" "X" exC4).getD "unknown" :=
  c4_amended.1 exC4 "P" "X" aggX4 (by rw [hbuildC4]; simp [lookupPer])

/-- Champion A: 20 games, 13 wins (65%); champion B: 3 games, 3 wins
(100%). -/
def ex10 : List MatchInfo :=
  List.replicate 13 (mkMatch "A" "TOP" true) ++
    (List.replicate 7 (mkMatch "A" "TOP" false) ++
      List.replicate 3 (mkMatch "B" "TOP" true))

/-- Champion B alone: 3 games, all wins. -/
def exB : List MatchInfo := List.replicate 3 (mkMatch "B" "TOP" true)

/-- The accumulator for champion A on `ex10`. -/
def aggA : Agg :=
  { games := 20, wins := 13, k := 0, d := 0, a := 0, time := 0, cs := 0,
    vision := 0, kp_sum := 0, dmg_share_sum := 0, role := "top" }

/-- The accumulator for champion B on `ex10` and `exB`. -/
def aggB3 : Agg :=
  { games := 3, wins := 3, k := 0, d := 0, a := 0, time := 0, cs := 0,
    vision := 0, kp_sum := 0, dmg_share_sum := 0, role := "top" }

theorem hbuild10 : buildPer ex10 "P" = [("A", aggA), ("B", aggB3)] := by
  simp [buildPer, buildPerFrom, ex10, mkMatch, mkPart, findYou, bumpPer,
    updateAgg, team_totals, ROLE_MAP, Agg.initA, aggA, aggB3, List.replicate]

theorem hbuildB : buildPer exB "P" = [("B", aggB3)] := by
  simp [buildPer, buildPerFrom, exB, mkMatch, mkPart, findYou, bumpPer,
    updateAgg, team_totals, ROLE_MAP, Agg.initA, aggB3, List.replicate]

theorem aggA_score_pos : (-1 : ℝ) < bestScoreOf 23 aggA := by
  have h := bestScore_nonneg 23 aggA ?_
  · linarith
  · show ((13 : Nat) : ℝ) ≤ max 1 ((20 : Nat) : ℝ)
    rw [show (((20 : Nat) : ℝ)) = (20 : ℝ) by norm_num, max_eq_right (by norm_num)]
    norm_num

theorem bestLoop_cons_skip (tg : Nat) (champ : String) (r : Agg)
    (rest : List (String × Agg)) (best : Option BestRow) (bs : ℝ)
    (h : r.games < MIN_GAMES_FOR_BEST) :
    bestLoop tg ((champ, r) :: rest) best bs = bestLoop tg rest best bs := by
  show (if r.games < MIN_GAMES_FOR_BEST then bestLoop tg rest best bs else _) = _
  rw [if_pos h]

theorem bestLoop_cons_take (tg : Nat) (champ : String) (r : Agg)
    (rest : List (String × Agg)) (best : Option BestRow) (bs : ℝ)
    (h1 : ¬(r.games < MIN_GAMES_FOR_BEST)) (h2 : bs < bestScoreOf tg r) :
    bestLoop tg ((champ, r) :: rest) best bs =
      bestLoop tg rest (some (mkBestRow champ r (bestScoreOf tg r)))
        (bestScoreOf tg r) := by
  show (if r.games < MIN_GAMES_FOR_BEST then _
        else if bs < bestScoreOf tg r then _ else _) = _
  rw [if_neg h1, if_pos h2]

/-- C10: the "best champion" selection excludes champion B (3 games, 100%
win rate) because it is below the 15-game floor, and selects champion A (20
games, 65%) even though B has the higher raw win rate; the full ranked table
applies no floor and still lists B; and when the sample is empty or no
champion reaches the floor the selection returns `none` instead of
raising. -/
theorem c10_best_champ_floor :
    (aggregate_best_champ ex10 "P").map (fun row => row.name) = some "A" ∧
    lookupPer (buildPer ex10 "P") "B" = some aggB3 ∧
    aggB3.games < MIN_GAMES_FOR_BEST ∧
    (metricsOf aggA).wr < (metricsOf aggB3).wr ∧
    "B" ∈ (aggregate_champ_table ex10 "P").map (fun row => row.name) ∧
    aggregate_best_champ [] "P" = none ∧
    aggregate_best_champ exB "P" = none := by
  have htot : (([("A", aggA), ("B", aggB3)] :
      List (String × Agg)).map (fun kv => kv.2.games)).sum = 23 := by
    simp [aggA, aggB3]
  refine ⟨?_, ?_, by decide, ?_, ?_, ?_, ?_⟩
  · unfold aggregate_best_champ
    rw [hbuild10, if_neg (by decide), if_neg (by decide), htot]
    rw [bestLoop_cons_take 23 "A" aggA [("B", aggB3)] none (-1) (by decide)
        aggA_score_pos,
      bestLoop_cons_skip 23 "B" aggB3 []
        (some (mkBestRow "A" aggA (bestScoreOf 23 aggA))) (bestScoreOf 23 aggA)
        (by decide)]
    rfl
  · rw [hbuild10]
    simp [lookupPer, aggA]
  · show ((13 : Nat) : ℝ) / max 1 ((20 : Nat) : ℝ) <
      ((3 : Nat) : ℝ) / max 1 ((3 : Nat) : ℝ)
    rw [show (((20 : Nat) : ℝ)) = (20 : ℝ) by norm_num,
      show (((3 : Nat) : ℝ)) = (3 : ℝ) by norm_num,
      max_eq_right (show (1:ℝ) ≤ 20 by norm_num),
      max_eq_right (show (1:ℝ) ≤ 3 by norm_num)]
    norm_num
  · unfold aggregate_champ_table
    rw [if_neg (by decide), hbuild10, htot]
    apply List.mem_map.mpr
    refine ⟨mkTableRow 23 "B" aggB3, ?_, rfl⟩
    rw [mem_sortRowsDesc]
    simp
  · rfl
  · unfold aggregate_best_champ
    rw [hbuildB, if_neg (by decide), if_neg (by decide)]
    rw [bestLoop_cons_skip _ "B" aggB3 [] none (-1) (by decide)]
    rfl

end RiftRewind

namespace RiftRewind

/-! ## Queue classifier (`split_agg.classify_primary_mode`, lines 102-135)

`Counter` updates are insertion-ordered update-or-append; `sorted(...,
reverse=True)` is a stable descending sort by weight.  The recency weight is
`math.exp(-i / 20.0)`, embedded over the reals. -/

/-- Counter update `counter[k] += w` on an insertion-ordered association
list. -/
def bumpCtr {α : Type} [Add α] (l : List (String × α)) (k : String) (w : α) :
    List (String × α) :=
  match l with
  | [] => [(k, w)]
  | (k2, w2) :: rest =>
    if k2 = k then (k2, w2 + w) :: rest else (k2, w2) :: bumpCtr rest k w

/-- Counter read `counter[k]` (0 when absent). -/
def ctrGetN (l : List (String × Nat)) (k : String) : Nat :=
  ((l.find? (fun kv => kv.1 == k)).map (fun kv => kv.2)).getD 0

/-- Weighted-vote read (0 when absent). -/
noncomputable def ctrGetR (l : List (String × ℝ)) (k : String) : ℝ :=
  ((l.find? (fun kv => kv.1 == k)).map (fun kv => kv.2)).getD 0

/-- The vote accumulation loop: for the match at index `i`, map
`queueId → bucket` (skipping unmapped queues), add `exp(-i/20)` to the
weighted vote and 1 to the unweighted count. -/
noncomputable def voteAux : Nat → List (String × ℝ) → List (String × Nat) →
    List MatchInfo → List (String × ℝ) × List (String × Nat)
  | _, w, b, [] => (w, b)
  | i, w, b, m :: rest =>
    match m.queueId.bind QUEUE_BUCKET with
    | none => voteAux (i + 1) w b rest
    | some bucket =>
      voteAux (i + 1) (bumpCtr w bucket (Real.exp (-(i : ℝ) / 20)))
        (bumpCtr b bucket 1) rest

/-- Stable descending insertion by weight. -/
noncomputable def insertVoteDesc (x : String × ℝ) :
    List (String × ℝ) → List (String × ℝ)
  | [] => [x]
  | y :: ys => if y.2 ≤ x.2 then x :: y :: ys else y :: insertVoteDesc x ys

/-- Stable descending sort by weight, the result of
`sorted(weighted.items(), key=lambda kv: kv[1], reverse=True)`. -/
noncomputable def sortVotesDesc : List (String × ℝ) → List (String × ℝ)
  | [] => []
  | x :: xs => insertVoteDesc x (sortVotesDesc xs)

/-- The dict returned by `classify_primary_mode`. -/
structure ClassifyResult where
  primary : String
  confidence : ℝ
  dist : List (String × Nat)

/-- Embeds `classify_primary_mode`. -/
noncomputable def classify_primary_mode (ms : List MatchInfo) : ClassifyResult :=
  if ms.isEmpty then { primary := "unranked", confidence := 0, dist := [] }
  else
    let wb := voteAux 0 [] [] ms
    if wb.1.isEmpty then { primary := "unranked", confidence := 0, dist := [] }
    else
      match sortVotesDesc wb.1 with
      | [] => { primary := "unranked", confidence := 0, dist := [] }
      | (top, top_w) :: restItems =>
        let second_w : ℝ := ((restItems.head?).map (fun kv => kv.2)).getD 0
        let total_w : ℝ := (wb.1.map (fun kv => kv.2)).sum
        let margin := (top_w - second_w) / max (1 / 1000000) total_w
        let confidence := max 0 (min 1 (margin * 2))
        let pr :=
          if ctrGetN wb.2 "solo" + ctrGetN wb.2 "flex" < 5 ∧ 5 ≤ ctrGetN wb.2 "normal"
          then ("normal", max confidence (6 / 10 : ℝ))
          else (top, confidence)
        { primary := pr.1, confidence := pyRound2 pr.2, dist := wb.2 }

/-- A match carrying only a queue id, for classifier examples. -/
def qMatch (q : Nat) : MatchInfo :=
  { queueId := some q, gameVersion := "", gameDuration := 0, participants := [] }

/-- Most-recent-first sample with queue ids 420, 420, 440. -/
def ex7 : List MatchInfo := [qMatch 420, qMatch 420, qMatch 440]

theorem exp20_bounds :
    (761 / 800 - 1 / 36000 : ℝ) ≤ Real.exp (-(1 : ℝ) / 20) ∧
      Real.exp (-(1 : ℝ) / 20) ≤ 761 / 800 + 1 / 36000 := by
  have hx : |(-(1 : ℝ) / 20)| = 1 / 20 := by
    rw [abs_of_nonpos (by norm_num)]
    norm_num
  have h := Real.exp_bound (x := -(1 : ℝ) / 20) (by rw [hx]; norm_num)
    (n := 3) (by norm_num)
  rw [hx] at h
  have hsum : ∑ m ∈ Finset.range 3, (-(1 : ℝ) / 20) ^ m / m.factorial
      = 761 / 800 := by
    rw [Finset.sum_range_succ, Finset.sum_range_succ, Finset.sum_range_succ,
      Finset.sum_range_zero]
    norm_num [Nat.factorial]
  rw [hsum] at h
  rw [abs_le] at h
  norm_num [Nat.factorial] at h
  constructor
  · linarith [h.1]
  · linarith [h.2]

theorem exp10_bounds :
    (181 / 200 - 1 / 4500 : ℝ) ≤ Real.exp (-(1 : ℝ) / 10) ∧
      Real.exp (-(1 : ℝ) / 10) ≤ 181 / 200 + 1 / 4500 := by
  have hx : |(-(1 : ℝ) / 10)| = 1 / 10 := by
    rw [abs_of_nonpos (by norm_num)]
    norm_num
  have h := Real.exp_bound (x := -(1 : ℝ) / 10) (by rw [hx]; norm_num)
    (n := 3) (by norm_num)
  rw [hx] at h
  have hsum : ∑ m ∈ Finset.range 3, (-(1 : ℝ) / 10) ^ m / m.factorial
      = 181 / 200 := by
    rw [Finset.sum_range_succ, Finset.sum_range_succ, Finset.sum_range_succ,
      Finset.sum_range_zero]
    norm_num [Nat.factorial]
  rw [hsum] at h
  rw [abs_le] at h
  norm_num [Nat.factorial] at h
  constructor
  · linarith [h.1]
  · linarith [h.2]

end RiftRewind

namespace RiftRewind

theorem hvote7 : voteAux 0 [] [] ex7 =
    ([("solo", 1 + Real.exp (-(1 : ℝ) / 20)), ("flex", Real.exp (-(2 : ℝ) / 20))],
      [("solo", 2), ("flex", 1)]) := by
  simp [voteAux, ex7, qMatch, QUEUE_BUCKET, bumpCtr, Real.exp_zero]

end RiftRewind

namespace RiftRewind

/-- C7: on the most-recent-first sample with queue ids `[420, 420, 440]` the
classifier accumulates recency weights `exp(-i/20)` per bucket plus an
unweighted count, yielding weighted votes solo `= 1 + exp(-1/20) ≈ 1.951`
(within 0.001) and flex `= exp(-2/20) ≈ 0.905` (within 0.001), picks `"solo"`
as primary, reports `dist = {solo: 2, flex: 1}`, and returns confidence
`clamp01(2*(topWeight-secondWeight)/totalWeight)` rounded to two decimals,
which is `0.73`. -/
theorem c7_queue_classifier :
    (classify_primary_mode ex7).primary = "solo" ∧
    (classify_primary_mode ex7).dist = [("solo", 2), ("flex", 1)] ∧
    (classify_primary_mode ex7).confidence = 73 / 100 ∧
    |ctrGetR (voteAux 0 [] [] ex7).1 "solo" - 1.951| ≤ 0.001 ∧
    |ctrGetR (voteAux 0 [] [] ex7).1 "flex" - 0.905| ≤ 0.001 := by
  have h210 : (-(2 : ℝ) / 20) = (-(1 : ℝ) / 10) := by norm_num
  have hvote7b : voteAux 0 [] [] ex7 =
      ([("solo", 1 + Real.exp (-(1 : ℝ) / 20)), ("flex", Real.exp (-(1 : ℝ) / 10))],
        [("solo", 2), ("flex", 1)]) := by
    rw [hvote7, h210]
  obtain ⟨he1lo, he1hi⟩ := exp20_bounds
  obtain ⟨he2lo, he2hi⟩ := exp10_bounds
  set e1 := Real.exp (-(1 : ℝ) / 20) with he1def
  set e2 := Real.exp (-(1 : ℝ) / 10) with he2def
  have hf_lo : (0.90477 : ℝ) ≤ e2 := by linarith
  have hf_hi : e2 ≤ 0.90523 := by linarith
  have hs_lo : (1.95122 : ℝ) ≤ 1 + e1 := by linarith
  have hs_hi : 1 + e1 ≤ 1.95128 := by linarith
  have hfs : e2 ≤ 1 + e1 := by linarith
  have hsort : sortVotesDesc [("solo", 1 + e1), ("flex", e2)] =
      [("solo", 1 + e1), ("flex", e2)] := by
    simp only [sortVotesDesc, insertVoteDesc]
    rw [if_pos hfs]
  have hden : (0 : ℝ) < 1 + e1 + e2 := by linarith
  have hm2lo : (0.725 : ℝ) ≤ (1 + e1 - e2) / (1 + e1 + e2) * 2 := by
    rw [div_mul_eq_mul_div, le_div_iff hden]
    linarith
  have hm2hi : (1 + e1 - e2) / (1 + e1 + e2) * 2 ≤ 0.734 := by
    rw [div_mul_eq_mul_div, div_le_iff hden]
    linarith
  have hmaxd : max (1 / 1000000 : ℝ) (1 + e1 + e2) = 1 + e1 + e2 :=
    max_eq_right (by linarith)
  have hclamp : max 0 (min 1 ((1 + e1 - e2) / (1 + e1 + e2) * 2)) =
      (1 + e1 - e2) / (1 + e1 + e2) * 2 := by
    rw [min_eq_right (by linarith), max_eq_right (by linarith)]
  have hn5 : ¬(ctrGetN [("solo", 2), ("flex", 1)] "solo" +
      ctrGetN [("solo", 2), ("flex", 1)] "flex" < 5 ∧
      5 ≤ ctrGetN [("solo", 2), ("flex", 1)] "normal") := by decide
  have hfloor : ⌊(1 + e1 - e2) / (1 + e1 + e2) * 2 * 100 + 1 / 2⌋ = (73 : ℤ) := by
    rw [Int.floor_eq_iff]
    constructor
    · show ((73 : ℤ) : ℝ) ≤ _
      push_cast
      linarith
    · show _ < ((73 : ℤ) : ℝ) + 1
      push_cast
      linarith
  have hcls : classify_primary_mode ex7 =
      { primary := "solo",
        confidence := pyRound2 ((1 + e1 - e2) / (1 + e1 + e2) * 2),
        dist := [("solo", 2), ("flex", 1)] } := by
    simp only [classify_primary_mode, hvote7b]
    rw [if_neg (by decide), if_neg (by decide), hsort]
    dsimp only [List.head?, Option.map, Option.getD, List.map, List.sum_cons,
      List.sum_nil]
    rw [if_neg hn5]
    dsimp only
    rw [add_zero, hmaxd, hclamp]
  refine ⟨by rw [hcls], by rw [hcls], ?_, ?_, ?_⟩
  · rw [hcls]
    show pyRound2 ((1 + e1 - e2) / (1 + e1 + e2) * 2) = 73 / 100
    unfold pyRound2
    rw [hfloor]
    norm_num
  · rw [hvote7b]
    show |(1 + e1) - 1.951| ≤ 0.001
    rw [abs_le]
    constructor <;> linarith
  · rw [hvote7b]
    show |e2 - 0.905| ≤ 0.001
    rw [abs_le]
    constructor <;> linarith

end RiftRewind

namespace RiftRewind

/-! ## TTL cache + in-flight coalescing (`riot_client._TTLCache` and
`RiotClient._get`, lines 53-87 and 119-168)

Under asyncio, code between awaits runs atomically.  In `_get` the section
from the cache lookup (`_CACHE.get`) through `inflight_set` contains no
await, so the first step of a caller — return the cached value, join an existing
in-flight future, or register a new future — is one atomic action.  The
registering caller (the leader) then runs the token-bucket/HTTP retry loop;
its externally visible effects (the cache `put`, `fut.set_result`, or on any
exception `fut.set_exception` followed by re-raising) all happen in the final
synchronous section after the last await, so the whole upstream fetch is one
atomic step, counted in `calls`.  A waiter awaiting the shared future
resumes only once the future is resolved, and resolving is idempotent
(guarded by `not fut.done()`).  The in-flight dict `_locks` is popped only by
`inflight_resolve`, which `_get` never calls (nor does any other code), so a
registered future is never removed.  One cache key is modelled; `up` is the
outcome of the upstream fetch, `ttl` the supplied TTL, and times are the
wall-clock values observed at each step. -/

deriving instance DecidableEq for Except

/-- The phase of one `_get` caller for the key. -/
inductive TaskPhase where
  | start
  | leader
  | waiting
  | done (r : Except Nat Nat)
deriving DecidableEq

/-- Shared state for one cache key: the cache slot (absolute expiry and
value), whether an in-flight future is registered, the resolution of that future,
the number of upstream fetches performed, and the phase of every caller. -/
structure CoSt where
  cache : Option (Nat × Nat)
  flight : Bool
  futRes : Option (Except Nat Nat)
  calls : Nat
  tasks : List TaskPhase
deriving DecidableEq

/-- The tail of the atomic first section after a cache miss: join the
in-flight future if one is registered, otherwise register one and become the
leader. -/
def enterPath (s : CoSt) (i : Nat) : CoSt :=
  if s.flight then { s with tasks := s.tasks.set i TaskPhase.waiting }
  else { s with flight := true, tasks := s.tasks.set i TaskPhase.leader }

/-- One atomic step of caller `i` at time `t`. -/
def stepTask (up : Except Nat Nat) (ttl : Nat) (s : CoSt) (i : Nat) (t : Nat) :
    CoSt :=
  match s.tasks[i]? with
  | none => s
  | some TaskPhase.start =>
    match s.cache with
    | some (e2, v) =>
      if e2 < t then enterPath { s with cache := none } i
      else { s with tasks := s.tasks.set i (TaskPhase.done (Except.ok v)) }
    | none => enterPath s i
  | some TaskPhase.leader =>
    match up with
    | Except.ok v =>
      { s with calls := s.calls + 1,
               cache := if 0 < ttl then some (t + ttl, v) else s.cache,
               futRes := if s.futRes = none then some (Except.ok v) else s.futRes,
               tasks := s.tasks.set i (TaskPhase.done (Except.ok v)) }
    | Except.error e =>
      { s with calls := s.calls + 1,
               futRes := if s.futRes = none then some (Except.error e) else s.futRes,
               tasks := s.tasks.set i (TaskPhase.done (Except.error e)) }
  | some TaskPhase.waiting =>
    match s.futRes with
    | some r => { s with tasks := s.tasks.set i (TaskPhase.done r) }
    | none => s
  | some (TaskPhase.done _) => s

/-- Run a schedule: a list of (caller index, time) pairs. -/
def runSched (up : Except Nat Nat) (ttl : Nat) : List (Nat × Nat) → CoSt → CoSt
  | [], s => s
  | (i, t) :: rest, s => runSched up ttl rest (stepTask up ttl s i t)

/-- N fresh concurrent callers, nothing cached, nothing in flight. -/
def initCo (N : Nat) : CoSt :=
  { cache := none, flight := false, futRes := none, calls := 0,
    tasks := List.replicate N TaskPhase.start }

/-- Number of callers currently in the leader phase. -/
def leaderCount (ts : List TaskPhase) : Nat :=
  ts.countP (fun ph => ph == TaskPhase.leader)

/-- The state invariant of the coalescing protocol. -/
def CoInv (up : Except Nat Nat) (ttl : Nat) (s : CoSt) : Prop :=
  (s.flight = false → leaderCount s.tasks = 0 ∧ s.calls = 0 ∧ s.futRes = none ∧
    s.cache = none ∧ ∀ ph ∈ s.tasks, ph = TaskPhase.start) ∧
  (s.flight = true → leaderCount s.tasks + s.calls = 1) ∧
  (∀ r, s.futRes = some r → r = up ∧ s.calls = 1) ∧
  (∀ e2 v, s.cache = some (e2, v) → up = Except.ok v ∧ 0 < ttl ∧ s.calls = 1) ∧
  (∀ (i : Nat) (r : Except Nat Nat),
    s.tasks[i]? = some (TaskPhase.done r) → r = up ∧ s.calls = 1)

theorem countP_set (p : TaskPhase → Bool) :
    ∀ (ts : List TaskPhase) (i : Nat) (a b : TaskPhase), ts[i]? = some b →
      (ts.set i a).countP p + (if p b then 1 else 0) =
        ts.countP p + (if p a then 1 else 0) := by
  intro ts
  induction ts with
  | nil => intro i a b h; simp at h
  | cons x xs ih =>
    intro i a b h
    cases i with
    | zero =>
      simp only [List.getElem?_cons_zero, Option.some.injEq] at h
      show (a :: xs).countP p + _ = _
      rw [List.countP_cons, List.countP_cons, ← h]
      cases hpa : p a <;> cases hpx : p x <;> simp [hpa, hpx] <;> omega
    | succ j =>
      simp only [List.getElem?_cons_succ] at h
      show (x :: xs.set j a).countP p + _ = _
      rw [List.countP_cons, List.countP_cons]
      have := ih j a b h
      omega

theorem leaderCount_le_one_mem (ts : List TaskPhase) (i : Nat)
    (h : ts[i]? = some TaskPhase.leader) : 1 ≤ leaderCount ts := by
  have hmem : TaskPhase.leader ∈ ts := List.getElem?_mem h
  have hpos : 0 < ts.countP (fun ph => ph == TaskPhase.leader) :=
    List.countP_pos.mpr ⟨TaskPhase.leader, hmem, by simp⟩
  unfold leaderCount
  omega

end RiftRewind

namespace RiftRewind

theorem leaderCount_set_nonleader (ts : List TaskPhase) (i : Nat)
    (a b : TaskPhase) (hb : ts[i]? = some b)
    (ha2 : (a == TaskPhase.leader) = false)
    (hb2 : (b == TaskPhase.leader) = false) :
    leaderCount (ts.set i a) = leaderCount ts := by
  have h := countP_set (fun ph => ph == TaskPhase.leader) ts i a b hb
  unfold leaderCount
  simp only [ha2, hb2, if_false] at h
  omega

theorem leaderCount_set_leader_from_start (ts : List TaskPhase) (i : Nat)
    (h : ts[i]? = some TaskPhase.start) :
    leaderCount (ts.set i TaskPhase.leader) = leaderCount ts + 1 := by
  have h2 := countP_set (fun ph => ph == TaskPhase.leader) ts i TaskPhase.leader
    TaskPhase.start h
  unfold leaderCount
  simp only [show ((TaskPhase.start == TaskPhase.leader)) = false from rfl,
    show ((TaskPhase.leader == TaskPhase.leader)) = true from rfl] at h2
  simp at h2
  omega

theorem leaderCount_set_done_from_leader (ts : List TaskPhase) (i : Nat)
    (r : Except Nat Nat) (h : ts[i]? = some TaskPhase.leader) :
    leaderCount (ts.set i (TaskPhase.done r)) + 1 = leaderCount ts := by
  have h2 := countP_set (fun ph => ph == TaskPhase.leader) ts i
    (TaskPhase.done r) TaskPhase.leader h
  unfold leaderCount
  simp only [show ((TaskPhase.done r == TaskPhase.leader)) = false from rfl,
    show ((TaskPhase.leader == TaskPhase.leader)) = true from rfl] at h2
  simp at h2
  omega

theorem tasks_set_done_inv (ts : List TaskPhase) (i : Nat) (a : TaskPhase)
    (j : Nat) (r : Except Nat Nat) (hi : i < ts.length)
    (hj : (ts.set i a)[j]? = some (TaskPhase.done r)) :
    (i = j ∧ a = TaskPhase.done r) ∨ (i ≠ j ∧ ts[j]? = some (TaskPhase.done r)) := by
  by_cases hij : i = j
  · subst hij
    rw [List.getElem?_set_self hi] at hj
    exact Or.inl ⟨rfl, Option.some.inj hj⟩
  · right
    rw [List.getElem?_set_ne hij] at hj
    exact ⟨hij, hj⟩

theorem bool_eq_false_of_ne_true {b : Bool} (h : ¬(b = true)) : b = false := by
  cases b
  · rfl
  · exact absurd rfl h

theorem stepTask_inv (up : Except Nat Nat) (ttl : Nat) (s : CoSt) (i : Nat)
    (t : Nat) (h : CoInv up ttl s) : CoInv up ttl (stepTask up ttl s i t) := by
  unfold CoInv at h ⊢
  obtain ⟨h1, h2, h3, h4, h5⟩ := h
  cases hTi : s.tasks[i]? with
  | none =>
    have hstep : stepTask up ttl s i t = s := by
      unfold stepTask
      rw [hTi]
    rw [hstep]
    exact ⟨h1, h2, h3, h4, h5⟩
  | some ph =>
    have hilen : i < s.tasks.length := (List.getElem?_eq_some_iff.mp hTi).1
    cases ph with
    | start =>
      cases hc : s.cache with
      | none =>
        by_cases hf : s.flight = true
        · have hstep : stepTask up ttl s i t =
              { s with tasks := s.tasks.set i TaskPhase.waiting } := by
            unfold stepTask
            rw [hTi, hc]
            show enterPath s i = _
            unfold enterPath
            rw [if_pos hf, ← hc]
          rw [hstep]
          refine ⟨?_, ?_, h3, h4, ?_⟩
          · intro hx
            dsimp only at hx
            rw [hf] at hx
            simp at hx
          · intro _
            dsimp only
            rw [leaderCount_set_nonleader s.tasks i TaskPhase.waiting
              TaskPhase.start hTi rfl rfl]
            exact h2 hf
          · intro j r hj
            dsimp only at hj
            rcases tasks_set_done_inv s.tasks i TaskPhase.waiting j r hilen hj with
              ⟨_, habs⟩ | ⟨_, hjold⟩
            · simp at habs
            · exact h5 j r hjold
        · obtain ⟨hl0, hc0, hfr, hcache, hall⟩ := h1 (bool_eq_false_of_ne_true hf)
          have hstep : stepTask up ttl s i t =
              { s with flight := true, tasks := s.tasks.set i TaskPhase.leader } := by
            unfold stepTask
            rw [hTi, hc]
            show enterPath s i = _
            unfold enterPath
            rw [if_neg hf, ← hc]
          rw [hstep]
          refine ⟨?_, ?_, ?_, ?_, ?_⟩
          · intro hx
            simp at hx
          · intro _
            dsimp only
            rw [leaderCount_set_leader_from_start s.tasks i hTi, hl0, hc0]
          · intro r hr
            dsimp only at hr
            rw [hfr] at hr
            cases hr
          · intro e2 v hcv
            dsimp only at hcv
            rw [hcache] at hcv
            cases hcv
          · intro j r hj
            dsimp only at hj
            rcases tasks_set_done_inv s.tasks i TaskPhase.leader j r hilen hj with
              ⟨_, habs⟩ | ⟨_, hjold⟩
            · simp at habs
            · exfalso
              obtain ⟨_, hcall⟩ := h5 j r hjold
              omega
      | some ev =>
        obtain ⟨e2, v⟩ := ev
        by_cases ht : e2 < t
        · by_cases hf : s.flight = true
          · have hstep : stepTask up ttl s i t =
                { s with
                    cache := none
                    tasks := s.tasks.set i TaskPhase.waiting } := by
              unfold stepTask
              rw [hTi, hc]
              show (if e2 < t then enterPath { s with cache := none } i
                    else { s with
                        cache := some (e2, v)
                        tasks := s.tasks.set i (TaskPhase.done (Except.ok v)) }) = _
              rw [if_pos ht]
              unfold enterPath
              rw [if_pos (show ({ s with cache := none } : CoSt).flight = true from hf)]
            rw [hstep]
            refine ⟨?_, ?_, h3, ?_, ?_⟩
            · intro hx
              dsimp only at hx
              rw [hf] at hx
              simp at hx
            · intro _
              dsimp only
              rw [leaderCount_set_nonleader s.tasks i TaskPhase.waiting
                TaskPhase.start hTi rfl rfl]
              exact h2 hf
            · intro e3 v3 hcv
              dsimp only at hcv
              cases hcv
            · intro j r hj
              dsimp only at hj
              rcases tasks_set_done_inv s.tasks i TaskPhase.waiting j r hilen hj
                with ⟨_, habs⟩ | ⟨_, hjold⟩
              · simp at habs
              · exact h5 j r hjold
          · exfalso
            have hcn := (h1 (bool_eq_false_of_ne_true hf)).2.2.2.1
            rw [hc] at hcn
            cases hcn
        · obtain ⟨hup, httl, hcall⟩ := h4 e2 v hc
          have hstep : stepTask up ttl s i t =
              { s with tasks := s.tasks.set i (TaskPhase.done (Except.ok v)) } := by
            unfold stepTask
            rw [hTi, hc]
            show (if e2 < t then enterPath { s with cache := none } i
                  else { s with
                      cache := some (e2, v)
                      tasks := s.tasks.set i (TaskPhase.done (Except.ok v)) }) = _
            rw [if_neg ht, ← hc]
          rw [hstep]
          refine ⟨?_, ?_, h3, h4, ?_⟩
          · intro hx
            dsimp only at hx
            have hcn := (h1 hx).2.2.2.1
            rw [hc] at hcn
            cases hcn
          · intro hft
            dsimp only
            rw [leaderCount_set_nonleader s.tasks i
              (TaskPhase.done (Except.ok v)) TaskPhase.start hTi rfl rfl]
            exact h2 hft
          · intro j r hj
            dsimp only at hj
            rcases tasks_set_done_inv s.tasks i (TaskPhase.done (Except.ok v))
              j r hilen hj with ⟨_, heq⟩ | ⟨_, hjold⟩
            · have hrv : Except.ok v = r := by injection heq
              exact ⟨by rw [← hrv, hup], hcall⟩
            · exact h5 j r hjold
    | leader =>
      have hf : s.flight = true := by
        by_contra hx
        have hall := (h1 (bool_eq_false_of_ne_true hx)).2.2.2.2
        have hmem := List.getElem?_mem hTi
        have := hall _ hmem
        simp at this
      have hlc1 : 1 ≤ leaderCount s.tasks := leaderCount_le_one_mem s.tasks i hTi
      have hsum := h2 hf
      have hcall0 : s.calls = 0 := by omega
      have hfrn : s.futRes = none := by
        cases hfr : s.futRes with
        | none => rfl
        | some r =>
          exfalso
          obtain ⟨_, hcc⟩ := h3 r hfr
          omega
      have hcn : s.cache = none := by
        cases hcc : s.cache with
        | none => rfl
        | some ev =>
          exfalso
          obtain ⟨_, _, hcc2⟩ := h4 ev.1 ev.2 (by rw [hcc])
          omega
      have hnodone : ∀ (j : Nat) (r : Except Nat Nat),
          s.tasks[j]? = some (TaskPhase.done r) → False := by
        intro j r hj
        obtain ⟨_, hcc⟩ := h5 j r hj
        omega
      cases up with
      | ok v =>
        have hstep : stepTask (Except.ok v) ttl s i t =
            { s with
                calls := s.calls + 1
                cache := if 0 < ttl then some (t + ttl, v) else s.cache
                futRes := if s.futRes = none then some (Except.ok v) else s.futRes
                tasks := s.tasks.set i (TaskPhase.done (Except.ok v)) } := by
          unfold stepTask
          rw [hTi]
        rw [hstep]
        refine ⟨?_, ?_, ?_, ?_, ?_⟩
        · intro hx
          dsimp only at hx
          rw [hf] at hx
          simp at hx
        · intro _
          dsimp only
          have := leaderCount_set_done_from_leader s.tasks i (Except.ok v) hTi
          omega
        · intro r hr
          dsimp only at hr
          rw [if_pos hfrn] at hr
          have hrv : Except.ok v = r := Option.some.inj hr
          exact ⟨hrv.symm, by dsimp only; omega⟩
        · intro e3 v3 hcv
          dsimp only at hcv
          by_cases httl : 0 < ttl
          · rw [if_pos httl] at hcv
            simp only [Option.some.injEq, Prod.mk.injEq] at hcv
            obtain ⟨-, hv⟩ := hcv
            exact ⟨by rw [hv], httl, by dsimp only; omega⟩
          · rw [if_neg httl, hcn] at hcv
            cases hcv
        · intro j r hj
          dsimp only at hj
          rcases tasks_set_done_inv s.tasks i (TaskPhase.done (Except.ok v))
            j r hilen hj with ⟨_, heq⟩ | ⟨_, hjold⟩
          · have hrv : Except.ok v = r := by injection heq
            exact ⟨hrv.symm, by dsimp only; omega⟩
          · exact absurd hjold (fun hx => hnodone j r hx)
      | error e =>
        have hstep : stepTask (Except.error e) ttl s i t =
            { s with
                calls := s.calls + 1
                futRes := if s.futRes = none then some (Except.error e) else s.futRes
                tasks := s.tasks.set i (TaskPhase.done (Except.error e)) } := by
          unfold stepTask
          rw [hTi]
        rw [hstep]
        refine ⟨?_, ?_, ?_, ?_, ?_⟩
        · intro hx
          dsimp only at hx
          rw [hf] at hx
          simp at hx
        · intro _
          dsimp only
          have := leaderCount_set_done_from_leader s.tasks i (Except.error e) hTi
          omega
        · intro r hr
          dsimp only at hr
          rw [if_pos hfrn] at hr
          have hrv : Except.error e = r := Option.some.inj hr
          exact ⟨hrv.symm, by dsimp only; omega⟩
        · intro e3 v3 hcv
          dsimp only at hcv
          rw [hcn] at hcv
          cases hcv
        · intro j r hj
          dsimp only at hj
          rcases tasks_set_done_inv s.tasks i (TaskPhase.done (Except.error e))
            j r hilen hj with ⟨_, heq⟩ | ⟨_, hjold⟩
          · have hrv : Except.error e = r := by injection heq
            exact ⟨hrv.symm, by dsimp only; omega⟩
          · exact absurd hjold (fun hx => hnodone j r hx)
    | waiting =>
      cases hfr : s.futRes with
      | none =>
        have hstep : stepTask up ttl s i t = s := by
          unfold stepTask
          rw [hTi, hfr]
        rw [hstep]
        exact ⟨h1, h2, h3, h4, h5⟩
      | some r0 =>
        obtain ⟨hr0, hcall⟩ := h3 r0 hfr
        have hstep : stepTask up ttl s i t =
            { s with tasks := s.tasks.set i (TaskPhase.done r0) } := by
          unfold stepTask
          rw [hTi, hfr]
        rw [hstep]
        refine ⟨?_, ?_, h3, h4, ?_⟩
        · intro hx
          dsimp only at hx
          have hfrn := (h1 hx).2.2.1
          rw [hfr] at hfrn
          cases hfrn
        · intro hft
          dsimp only
          rw [leaderCount_set_nonleader s.tasks i (TaskPhase.done r0)
            TaskPhase.waiting hTi rfl rfl]
          exact h2 hft
        · intro j r hj
          dsimp only at hj
          rcases tasks_set_done_inv s.tasks i (TaskPhase.done r0) j r hilen hj
            with ⟨_, heq⟩ | ⟨_, hjold⟩
          · have hrr : r0 = r := by injection heq
            exact ⟨by rw [← hrr, hr0], hcall⟩
          · exact h5 j r hjold
    | done r1 =>
      have hstep : stepTask up ttl s i t = s := by
        unfold stepTask
        rw [hTi]
      rw [hstep]
      exact ⟨h1, h2, h3, h4, h5⟩

theorem runSched_inv (up : Except Nat Nat) (ttl : Nat) (σ : List (Nat × Nat)) :
    ∀ s : CoSt, CoInv up ttl s → CoInv up ttl (runSched up ttl σ s) := by
  induction σ with
  | nil => intro s h; exact h
  | cons it rest ih =>
    intro s h
    obtain ⟨i, t⟩ := it
    exact ih (stepTask up ttl s i t) (stepTask_inv up ttl s i t h)

theorem initCo_inv (up : Except Nat Nat) (ttl : Nat) (N : Nat) :
    CoInv up ttl (initCo N) := by
  have hstart : ∀ ph ∈ List.replicate N TaskPhase.start, ph = TaskPhase.start :=
    fun ph hm => List.eq_of_mem_replicate hm
  have hcount : leaderCount (List.replicate N TaskPhase.start) = 0 := by
    unfold leaderCount
    induction N with
    | zero => rfl
    | succ n ihn =>
      rw [List.replicate_succ, List.countP_cons]
      simp [ihn]
  refine ⟨fun _ => ⟨hcount, rfl, rfl, rfl, hstart⟩, ?_, ?_, ?_, ?_⟩
  · intro hx
    simp [initCo] at hx
  · intro r hr
    cases hr
  · intro e2 v hcv
    cases hcv
  · intro j r hj
    have := hstart _ (List.getElem?_mem hj)
    cases this

end RiftRewind

namespace RiftRewind

/-- C2: starting from N fresh concurrent callers with nothing cached and no
in-flight request, along EVERY schedule at most one upstream fetch is
performed; every caller that completes observes exactly the upstream outcome
(the same value on success, the same error on failure); if all N callers have
completed then exactly one upstream fetch was performed; any cached entry
holds the upstream success value and exists only when a positive TTL was
supplied; on failure nothing is ever cached; and when the leader fetch
succeeds with a TTL supplied, its step installs the value in the cache with
expiry `t + ttl`. -/
theorem c2_coalescing (up : Except Nat Nat) (ttl : Nat) (N : Nat)
    (σ : List (Nat × Nat)) :
    (runSched up ttl σ (initCo N)).calls ≤ 1 ∧
    (∀ (i : Nat) (r : Except Nat Nat),
      (runSched up ttl σ (initCo N)).tasks[i]? = some (TaskPhase.done r) →
      r = up) ∧
    (0 < N →
      (∀ i : Nat, i < N → ∃ r : Except Nat Nat,
        (runSched up ttl σ (initCo N)).tasks[i]? = some (TaskPhase.done r)) →
      (runSched up ttl σ (initCo N)).calls = 1) ∧
    (∀ e2 v : Nat, (runSched up ttl σ (initCo N)).cache = some (e2, v) →
      up = Except.ok v ∧ 0 < ttl) ∧
    (∀ e : Nat, up = Except.error e → (runSched up ttl σ (initCo N)).cache = none) ∧
    (∀ (s2 : CoSt) (i2 t2 v : Nat), up = Except.ok v →
      s2.tasks[i2]? = some TaskPhase.leader → 0 < ttl →
      (stepTask up ttl s2 i2 t2).cache = some (t2 + ttl, v)) := by
  have inv := runSched_inv up ttl σ (initCo N) (initCo_inv up ttl N)
  unfold CoInv at inv
  obtain ⟨inv1, inv2, inv3, inv4, inv5⟩ := inv
  refine ⟨?_, ?_, ?_, ?_, ?_, ?_⟩
  · cases hfl : (runSched up ttl σ (initCo N)).flight with
    | false =>
      have := (inv1 hfl).2.1
      omega
    | true =>
      have := inv2 hfl
      omega
  · intro i r hr
    exact (inv5 i r hr).1
  · intro hN hall
    obtain ⟨r, hr⟩ := hall 0 hN
    exact (inv5 0 r hr).2
  · intro e2 v hcv
    obtain ⟨ha, hb, _⟩ := inv4 e2 v hcv
    exact ⟨ha, hb⟩
  · intro e he
    cases hcc : (runSched up ttl σ (initCo N)).cache with
    | none => rfl
    | some ev =>
      obtain ⟨hok, _, _⟩ := inv4 ev.1 ev.2 (by rw [hcc])
      rw [he] at hok
      cases hok
  · intro s2 i2 t2 v hup hlead httl
    subst hup
    have hstep : stepTask (Except.ok v) ttl s2 i2 t2 =
        { s2 with
            calls := s2.calls + 1
            cache := if 0 < ttl then some (t2 + ttl, v) else s2.cache
            futRes := if s2.futRes = none then some (Except.ok v) else s2.futRes
            tasks := s2.tasks.set i2 (TaskPhase.done (Except.ok v)) } := by
      unfold stepTask
      rw [hlead]
    rw [hstep]
    show (if 0 < ttl then some (t2 + ttl, v) else s2.cache) = _
    rw [if_pos httl]

/-- Witness for C2: two concurrent callers, a successful upstream fetch and
TTL 120; on the schedule where caller 0 registers and fetches and caller 1
joins and awaits, both complete and exactly one upstream call was made. -/
theorem c2_coalescing_witness :
    (runSched (Except.ok 5) 120 [(0, 0), (0, 0), (1, 0), (1, 0)]
      (initCo 2)).calls = 1 := by
  have h := (c2_coalescing (Except.ok 5) 120 2 [(0, 0), (0, 0), (1, 0), (1, 0)]).2.2.1
  apply h
  · decide
  · intro i hi
    match i, hi with
    | 0, _ => exact ⟨Except.ok 5, by decide⟩
    | 1, _ => exact ⟨Except.ok 5, by decide⟩

/-- The cache lookup at time `t` misses: no entry, or the entry is expired
(`time > exp`, which also evicts it). -/
def cacheMissAt (c : Option (Nat × Nat)) (t : Nat) : Prop :=
  c = none ∨ ∃ e2 v : Nat, c = some (e2, v) ∧ e2 < t

theorem stepTask_flight_mono (up : Except Nat Nat) (ttl : Nat) (s : CoSt)
    (i t : Nat) (hf : s.flight = true) : (stepTask up ttl s i t).flight = true := by
  unfold stepTask
  cases hTi : s.tasks[i]? with
  | none => exact hf
  | some ph =>
    cases ph with
    | start =>
      cases hc : s.cache with
      | none =>
        show (enterPath s i).flight = true
        unfold enterPath
        rw [if_pos hf]
        exact hf
      | some ev =>
        obtain ⟨e2, v⟩ := ev
        show (if e2 < t then enterPath { s with cache := none } i
              else { s with
                  cache := some (e2, v)
                  tasks := s.tasks.set i (TaskPhase.done (Except.ok v)) }).flight = true
        by_cases ht : e2 < t
        · rw [if_pos ht]
          unfold enterPath
          rw [if_pos (show ({ s with cache := none } : CoSt).flight = true from hf)]
          exact hf
        · rw [if_neg ht]
          exact hf
    | leader =>
      cases up with
      | ok v => exact hf
      | error e => exact hf
    | waiting =>
      cases hfr : s.futRes with
      | none => exact hf
      | some r => exact hf
    | done r => exact hf

theorem runSched_flight_mono (up : Except Nat Nat) (ttl : Nat)
    (σ : List (Nat × Nat)) :
    ∀ s : CoSt, s.flight = true → (runSched up ttl σ s).flight = true := by
  induction σ with
  | nil => intro s hf; exact hf
  | cons it rest ih =>
    intro s hf
    obtain ⟨i, t⟩ := it
    exact ih (stepTask up ttl s i t) (stepTask_flight_mono up ttl s i t hf)

theorem waitStepDone (up : Except Nat Nat) (ttl : Nat) (s1 : CoSt) (L t2 : Nat)
    (r : Except Nat Nat) (hw : s1.tasks[L]? = some TaskPhase.waiting)
    (hres : s1.futRes = some r) :
    stepTask up ttl s1 L t2 =
      { s1 with tasks := s1.tasks.set L (TaskPhase.done r) } := by
  unfold stepTask
  rw [hw, hres]

theorem joinStep2 (up : Except Nat Nat) (ttl : Nat) (s0 : CoSt) (L t2 : Nat)
    (r : Except Nat Nat) (c : Option (Nat × Nat)) (hlen : L < s0.tasks.length)
    (hres : s0.futRes = some r) :
    ((stepTask up ttl
        { s0 with cache := c, tasks := s0.tasks.set L TaskPhase.waiting }
        L t2).tasks)[L]? = some (TaskPhase.done r) ∧
    (stepTask up ttl
        { s0 with cache := c, tasks := s0.tasks.set L TaskPhase.waiting }
        L t2).calls = s0.calls := by
  have hw : ({ s0 with cache := c, tasks := s0.tasks.set L TaskPhase.waiting } :
      CoSt).tasks[L]? = some TaskPhase.waiting := by
    show (s0.tasks.set L TaskPhase.waiting)[L]? = _
    exact List.getElem?_set_self hlen
  have h2 := waitStepDone up ttl
    { s0 with cache := c, tasks := s0.tasks.set L TaskPhase.waiting } L t2 r hw hres
  rw [h2]
  refine ⟨?_, rfl⟩
  show ((s0.tasks.set L TaskPhase.waiting).set L (TaskPhase.done r))[L]? = _
  exact List.getElem?_set_self (by rw [List.length_set]; exact hlen)

theorem joinCompleted (up : Except Nat Nat) (ttl : Nat) (s0 : CoSt)
    (L t1 t2 : Nat) (r : Except Nat Nat)
    (hL : s0.tasks[L]? = some TaskPhase.start) (hf : s0.flight = true)
    (hres : s0.futRes = some r) (hmiss : cacheMissAt s0.cache t1) :
    ((stepTask up ttl (stepTask up ttl s0 L t1) L t2).tasks)[L]? =
      some (TaskPhase.done r) ∧
    (stepTask up ttl (stepTask up ttl s0 L t1) L t2).calls = s0.calls := by
  have hlen : L < s0.tasks.length := (List.getElem?_eq_some_iff.mp hL).1
  rcases hmiss with hnone | ⟨e2, v, hsome, hlt⟩
  · have h1 : stepTask up ttl s0 L t1 =
        { s0 with tasks := s0.tasks.set L TaskPhase.waiting } := by
      unfold stepTask
      rw [hL, hnone]
      show enterPath s0 L = _
      unfold enterPath
      rw [if_pos hf, ← hnone]
    rw [h1]
    exact joinStep2 up ttl s0 L t2 r s0.cache hlen hres
  · have h1 : stepTask up ttl s0 L t1 =
        { s0 with cache := none, tasks := s0.tasks.set L TaskPhase.waiting } := by
      unfold stepTask
      rw [hL, hsome]
      show (if e2 < t1 then enterPath { s0 with cache := none } L
            else { s0 with
                cache := some (e2, v)
                tasks := s0.tasks.set L (TaskPhase.done (Except.ok v)) }) = _
      rw [if_pos hlt]
      unfold enterPath
      rw [if_pos (show ({ s0 with cache := none } : CoSt).flight = true from hf)]
    rw [h1]
    exact joinStep2 up ttl s0 L t2 r none hlen hres

/-- C3: once a fetch for the key has completed (the registered in-flight
future is resolved, with a value or an error), no schedule of steps ever
removes the in-flight registration (the fetch path never calls
`inflight_resolve`); and a new caller arriving later whose cache lookup
misses — the entry is absent (e.g. `ttl = 0`) or expired — joins the
already-completed future and finishes with the ORIGINAL result `r` (the
original value, or re-raising the original error), with no new upstream call
(`calls` unchanged). -/
theorem c3_inflight_persistence (up : Except Nat Nat) (ttl : Nat) (s : CoSt)
    (r : Except Nat Nat) (hf : s.flight = true) (hres : s.futRes = some r) :
    (∀ σ : List (Nat × Nat), (runSched up ttl σ s).flight = true) ∧
    (∀ t1 t2 : Nat, cacheMissAt s.cache t1 →
      ((stepTask up ttl (stepTask up ttl
          { s with tasks := s.tasks ++ [TaskPhase.start] }
          s.tasks.length t1) s.tasks.length t2).tasks)[s.tasks.length]? =
        some (TaskPhase.done r) ∧
      (stepTask up ttl (stepTask up ttl
          { s with tasks := s.tasks ++ [TaskPhase.start] }
          s.tasks.length t1) s.tasks.length t2).calls = s.calls) := by
  constructor
  · intro σ
    exact runSched_flight_mono up ttl σ s hf
  · intro t1 t2 hmiss
    have happ : ({ s with tasks := s.tasks ++ [TaskPhase.start] } :
        CoSt).tasks[s.tasks.length]? = some TaskPhase.start := by
      show (s.tasks ++ [TaskPhase.start])[s.tasks.length]? = _
      exact List.getElem?_concat_length s.tasks TaskPhase.start
    exact joinCompleted up ttl { s with tasks := s.tasks ++ [TaskPhase.start] }
      s.tasks.length t1 t2 r happ hf hres hmiss

/-- Witness for C3 at a concrete completed-with-error state: the in-flight
registration survives an empty schedule, and a later caller joining after the
failed fetch re-raises the original error with no new upstream call. -/
theorem c3_inflight_persistence_witness :
    (runSched (Except.error 404) 0 []
      { cache := none, flight := true, futRes := some (Except.error 404),
        calls := 1, tasks := [TaskPhase.done (Except.error 404)] }).flight = true ∧
    ((stepTask (Except.error 404) 0 (stepTask (Except.error 404) 0
        { cache := none, flight := true, futRes := some (Except.error 404),
          calls := 1,
          tasks := [TaskPhase.done (Except.error 404), TaskPhase.start] } 1 5) 1
        6).tasks)[1]? = some (TaskPhase.done (Except.error 404)) := by
  have h := c3_inflight_persistence (Except.error 404) 0
    { cache := none, flight := true, futRes := some (Except.error 404),
      calls := 1, tasks := [TaskPhase.done (Except.error 404)] }
    (Except.error 404) rfl rfl
  exact ⟨h.1 [], (h.2 5 6 (Or.inl rfl)).1⟩

end RiftRewind
